import Mathlib

/-!
# Verification of the gcubed-build-switcher Unix-socket IPC core

Shallow embedding of the Unix domain socket request/response protocol of the
`vscode-extension` component: the null-terminated message framing
(`socketClientHandler.js` / `requestReceiver.js`), admission control
(`handleClientConnection`), request validation (`validateClientRequest`),
configuration constants (`utils/constants.js`) and graceful shutdown
(`socketServerManager.js`).

Bytes are modelled as natural numbers (a chunk is a `List Nat`; the source
works on Node `Buffer`s whose elements are octets).  JavaScript strings are
modelled as Lean `String`s (sequences of Unicode scalar values), JSON values
by the inductive type `Json`, and the platform functions `JSON.stringify`,
`JSON.parse`, `Buffer.from(s, "utf8")` and `Buffer.toString("utf8")` by
executable Lean functions faithful to those platform functions on the inputs
exercised here (canonical JSON text without insignificant whitespace, and
well-formed UTF-8).
-/

/-! ## Configuration constants (src/vscode-extension/src/utils/constants.js) -/

/-- `const NULL_BYTE = 0` — the frame terminator byte. -/
def NULL_BYTE : Nat := 0

/-- `const MAX_BUFFER_SIZE = 1024` — 1KB limit on the accumulation buffer. -/
def MAX_BUFFER_SIZE : Nat := 1024

/-- `const MAX_CONCURRENT_CLIENT_CONNECTIONS = 5`. -/
def MAX_CONCURRENT_CLIENT_CONNECTIONS : Nat := 5

/-- `const SERVER_SOCKET_MODE = 0o666`. -/
def SERVER_SOCKET_MODE : Nat := 0o666

/-- `const SOCKET_INACTIVITY_TIMEOUT = 5000` (milliseconds). -/
def SOCKET_INACTIVITY_TIMEOUT : Nat := 5000

/-- `const FIRM_SOCKET_CLOSE_TIMEOUT = 3000` (milliseconds). -/
def FIRM_SOCKET_CLOSE_TIMEOUT : Nat := 3000

/-- `const INCOMING_MESSAGE_COMPLETION_TIMEOUT_MS = 1000` (milliseconds). -/
def INCOMING_MESSAGE_COMPLETION_TIMEOUT_MS : Nat := 1000

/-- `process.env["GCUBED_VENV_SOCKET_PATH"] || "/tmp/gcubed_venv_switcher.sock"`.
`env` is the environment variable's value (`none` when unset).  JavaScript
`||` falls through to the default when the variable is unset or holds the
empty string (the empty string is falsy). -/
def serverSocketPath (env : Option String) : String :=
  match env with
  | some s => if s = "" then "/tmp/gcubed_venv_switcher.sock" else s
  | none => "/tmp/gcubed_venv_switcher.sock"

/-! ## The receive loop (dataEventHandler)

`receiveClientRequest` (both in `socketClientHandler.js` lines 74–139 and in
`requestReceiver.js` lines 17–104; the chunk-handling logic is identical)
installs a `data` listener that, per chunk:

  * scans the chunk for `NULL_BYTE` (`chunk.indexOf(NULL_BYTE)`);
  * if found, removes the data listener, assembles `messageBuffer` plus the
    chunk bytes strictly before the terminator, and settles the promise;
  * otherwise checks `messageBuffer.length + chunk.length > MAX_BUFFER_SIZE`
    and rejects with a size error, or appends the chunk to `messageBuffer`.

`messageBuffer` starts as `null` (modelled `Option (List Nat)`).
-/

/-- A data chunk delivered by a socket `data` event: a list of octets. -/
abbrev Chunk := List Nat

/-- `chunk.indexOf(NULL_BYTE)`: index of the first terminator byte
(`none` models JavaScript's `-1`). -/
def indexOfNullByte : Chunk → Option Nat
  | [] => none
  | b :: rest =>
    if b = NULL_BYTE then some 0 else (indexOfNullByte rest).map (fun i => i + 1)

/-- Result of one invocation of `dataEventHandler` on one chunk. -/
inductive RecvStep where
  /-- Terminator found: the promise is resolved/rejected with this assembled
  message (bytes strictly before the first terminator), and the data
  listener has been removed. -/
  | frame (message : List Nat) : RecvStep
  /-- `totalSize > MAX_BUFFER_SIZE`: reject with the size-limit error. -/
  | overflow : RecvStep
  /-- No terminator, no overflow: keep listening with this buffer. -/
  | cont (buffer : Option (List Nat)) : RecvStep
  deriving DecidableEq, Repr

/-- One `dataEventHandler(chunk)` call (socketClientHandler.js lines 90–137). -/
def dataEventStep (messageBuffer : Option (List Nat)) (chunk : Chunk) : RecvStep :=
  match indexOfNullByte chunk with
  | some terminatorIndex =>
      -- `!messageBuffer ? chunk.subarray(0, i) : Buffer.concat([buf, chunk.subarray(0, i)])`
      RecvStep.frame (match messageBuffer with
        | none => chunk.take terminatorIndex
        | some buf => buf ++ chunk.take terminatorIndex)
  | none =>
      -- `const totalSize = (messageBuffer ? messageBuffer.length : 0) + chunk.length`
      let totalSize := (match messageBuffer with
        | none => 0
        | some buf => buf.length) + chunk.length
      if totalSize > MAX_BUFFER_SIZE then RecvStep.overflow
      else
        -- `messageBuffer = !messageBuffer ? Buffer.from(chunk) : Buffer.concat([messageBuffer, chunk])`
        RecvStep.cont (some (match messageBuffer with
          | none => chunk
          | some buf => buf ++ chunk))

/-- Final outcome of a sequence of `data` events on one connection. -/
inductive RecvOutcome where
  /-- A frame was completed with these message bytes. -/
  | frame (message : List Nat) : RecvOutcome
  /-- The accumulated size exceeded `MAX_BUFFER_SIZE`. -/
  | overflow : RecvOutcome
  /-- All chunks consumed without a terminator: the listener is still
  waiting (the completion timer would eventually fire). -/
  | incomplete (buffer : Option (List Nat)) : RecvOutcome
  deriving DecidableEq, Repr

/-- Runs `dataEventHandler` over a sequence of inbound chunks.  Once a
terminator is found the listener is removed (`removeListener`), so
remaining chunks are not processed — the recursion stops. -/
def receiveLoop (messageBuffer : Option (List Nat)) : List Chunk → RecvOutcome
  | [] => RecvOutcome.incomplete messageBuffer
  | chunk :: rest =>
    match dataEventStep messageBuffer chunk with
    | RecvStep.frame m => RecvOutcome.frame m
    | RecvStep.overflow => RecvOutcome.overflow
    | RecvStep.cont buf => receiveLoop buf rest

/-! ## JSON values

JavaScript values produced by `JSON.parse` and consumed by `JSON.stringify`.
Numbers are modelled as arbitrary-precision integers; this is faithful to
JavaScript doubles for integers of magnitude at most `2 ^ 53` (the
well-formedness predicate `jsonWF` below restricts to that range), and the
requests this protocol carries hold only strings.  Object fields are an
insertion-ordered association list, as in JavaScript. -/
inductive Json where
  | null : Json
  | bool (b : Bool) : Json
  | num (n : Int) : Json
  | str (s : String) : Json
  | arr (items : List Json) : Json
  | obj (fields : List (String × Json)) : Json
  deriving Repr

/-- Lower-case hexadecimal digit, as emitted by `JSON.stringify` in
`\u00xx` escapes (and reused for decimal digits). -/
def hexDigitChar : Nat → Char
  | 0 => '0' | 1 => '1' | 2 => '2' | 3 => '3' | 4 => '4'
  | 5 => '5' | 6 => '6' | 7 => '7' | 8 => '8' | 9 => '9'
  | 10 => 'a' | 11 => 'b' | 12 => 'c' | 13 => 'd' | 14 => 'e'
  | _ => 'f'

/-- `JSON.stringify` string-character escaping: `"` and `\` are escaped,
control characters use the short escapes or `\u00xx`, everything else is
emitted raw. -/
def escapeChar (c : Char) : List Char :=
  if c = '"' then ['\\', '"']
  else if c = '\\' then ['\\', '\\']
  else if c = '\x08' then ['\\', 'b']
  else if c = '\x0c' then ['\\', 'f']
  else if c = '\n' then ['\\', 'n']
  else if c = '\r' then ['\\', 'r']
  else if c = '\t' then ['\\', 't']
  else if c.toNat < 0x20 then
    ['\\', 'u', '0', '0', hexDigitChar (c.toNat / 16), hexDigitChar (c.toNat % 16)]
  else [c]

/-- `JSON.stringify` of a string: quote, escaped characters, quote. -/
def serializeStringChars (s : List Char) : List Char :=
  '"' :: (s.map escapeChar).flatten ++ ['"']

/-- Decimal digits of `n`, most significant first.  The fuel argument
(`n + 1` is always enough, see `natToCharsAux_spec`) keeps the recursion
structural so that terms reduce definitionally. -/
def natToCharsAux : Nat → Nat → List Char
  | 0, _ => []
  | fuel + 1, n =>
    if n < 10 then [hexDigitChar n]
    else natToCharsAux fuel (n / 10) ++ [hexDigitChar (n % 10)]

def natToChars (n : Nat) : List Char := natToCharsAux (n + 1) n

/-- `JSON.stringify` of an integer. -/
def intToChars (n : Int) : List Char :=
  if n < 0 then '-' :: natToChars n.natAbs else natToChars n.natAbs

mutual
/-- `JSON.stringify(v)` (canonical form: no inserted whitespace). -/
def jsonSerialize : Json → List Char
  | Json.null => ['n', 'u', 'l', 'l']
  | Json.bool true => ['t', 'r', 'u', 'e']
  | Json.bool false => ['f', 'a', 'l', 's', 'e']
  | Json.num n => intToChars n
  | Json.str s => serializeStringChars s.data
  | Json.arr items => '[' :: jsonSerializeItems items ++ [']']
  | Json.obj fields => '{' :: jsonSerializeFields fields ++ ['}']
  termination_by structural j => j

def jsonSerializeItems : List Json → List Char
  | [] => []
  | [x] => jsonSerialize x
  | x :: y :: rest => jsonSerialize x ++ ',' :: jsonSerializeItems (y :: rest)
  termination_by structural l => l

def jsonSerializeFields : List (String × Json) → List Char
  | [] => []
  | [(k, v)] => serializeStringChars k.data ++ ':' :: jsonSerialize v
  | (k, v) :: f :: rest =>
    serializeStringChars k.data ++ ':' :: jsonSerialize v ++ ',' :: jsonSerializeFields (f :: rest)
  termination_by structural l => l
end

mutual
/-- Size measure used for parser-fuel bookkeeping. -/
def jsize : Json → Nat
  | Json.null => 1
  | Json.bool _ => 1
  | Json.num _ => 1
  | Json.str _ => 1
  | Json.arr items => 1 + jsizeList items
  | Json.obj fields => 1 + jsizeFields fields
  termination_by structural j => j

def jsizeList : List Json → Nat
  | [] => 0
  | x :: rest => 1 + jsize x + jsizeList rest
  termination_by structural l => l

def jsizeFields : List (String × Json) → Nat
  | [] => 0
  | (_, v) :: rest => 1 + jsize v + jsizeFields rest
  termination_by structural l => l
end

/-- Keys of an association list are pairwise distinct. -/
def keysNodup : List (String × Json) → Bool
  | [] => true
  | (k, _) :: rest => !(rest.any (fun p => p.1 == k)) && keysNodup rest

mutual
/-- Well-formed JSON value: every number fits JavaScript's exact-integer
range (`|n| ≤ 2^53`) and no object has duplicate keys (a JavaScript object
cannot hold two properties of the same name). -/
def jsonWF : Json → Bool
  | Json.null => true
  | Json.bool _ => true
  | Json.num n => decide (n.natAbs ≤ 9007199254740992)
  | Json.str _ => true
  | Json.arr items => jsonWFList items
  | Json.obj fields => keysNodup fields && jsonWFFields fields
  termination_by structural j => j

def jsonWFList : List Json → Bool
  | [] => true
  | x :: rest => jsonWF x && jsonWFList rest
  termination_by structural l => l

def jsonWFFields : List (String × Json) → Bool
  | [] => true
  | (_, v) :: rest => jsonWF v && jsonWFFields rest
  termination_by structural l => l
end

/-! ## JSON.parse

A recursive-descent parser for the canonical JSON texts produced by
`jsonSerialize` (no insignificant whitespace — `JSON.stringify` output
never contains any, and the claims evaluate `JSON.parse` only on such
texts and on the empty string, where both fail).  Object construction uses
JavaScript property-assignment semantics (`jsObjInsert`): a repeated key
keeps its first position and takes the last value, exactly as `JSON.parse`
builds objects. -/

def hexVal (c : Char) : Option Nat :=
  if 48 ≤ c.toNat ∧ c.toNat ≤ 57 then some (c.toNat - 48)
  else if 97 ≤ c.toNat ∧ c.toNat ≤ 102 then some (c.toNat - 87)
  else if 65 ≤ c.toNat ∧ c.toNat ≤ 70 then some (c.toNat - 55)
  else none

def unescapeChar : Char → Option Char
  | '"' => some '"'
  | '\\' => some '\\'
  | '/' => some '/'
  | 'b' => some '\x08'
  | 'f' => some '\x0c'
  | 'n' => some '\n'
  | 'r' => some '\r'
  | 't' => some '\t'
  | _ => none

/-- One step of JSON string-body parsing, given the next character and the
characters after it: the closing quote, one decoded character (raw or
escaped), or a failure.  A `\uXXXX` escape denoting a lone surrogate is
rejected (Lean characters are Unicode scalar values; such escapes never
arise from well-formed strings). -/
inductive StrStep where
  | done (rest : List Char) : StrStep
  | ch (c : Char) (rest : List Char) : StrStep
  | fail : StrStep
  deriving Repr

def parseStringStep (c : Char) (rest : List Char) : StrStep :=
  if c = '"' then StrStep.done rest
  else if c = '\\' then
    match rest with
    | [] => StrStep.fail
    | e :: rest2 =>
      if e = 'u' then
        match rest2 with
        | h1 :: h2 :: h3 :: h4 :: rest3 =>
          match hexVal h1, hexVal h2, hexVal h3, hexVal h4 with
          | some a, some b, some c2, some d =>
            if Nat.isValidChar (((a * 16 + b) * 16 + c2) * 16 + d) then
              StrStep.ch (Char.ofNat (((a * 16 + b) * 16 + c2) * 16 + d)) rest3
            else StrStep.fail
          | _, _, _, _ => StrStep.fail
        | _ => StrStep.fail
      else
        match unescapeChar e with
        | some u => StrStep.ch u rest2
        | none => StrStep.fail
  else StrStep.ch c rest

/-- Iterated string-body parsing up to and including the closing quote;
returns the decoded characters and the remaining input.  The fuel (the
character count is always enough, since every step consumes at least one
character) keeps the recursion structural. -/
def parseStringBodyAux : Nat → List Char → Option (List Char × List Char)
  | 0, _ => none
  | _ + 1, [] => none
  | fuel + 1, c :: rest =>
    match parseStringStep c rest with
    | StrStep.done r => some ([], r)
    | StrStep.fail => none
    | StrStep.ch u r => (parseStringBodyAux fuel r).map (fun p => (u :: p.1, p.2))

def parseStringBody (s : List Char) : Option (List Char × List Char) :=
  parseStringBodyAux s.length s

def isDigitChar (c : Char) : Bool := '0' ≤ c && c ≤ '9'

def digitVal (c : Char) : Nat := c.toNat - 48

def digitsToNat (ds : List Char) : Nat :=
  ds.foldl (fun acc c => acc * 10 + digitVal c) 0

/-- Parses a nonempty run of decimal digits. -/
def parseNatChars (s : List Char) : Option (Nat × List Char) :=
  if (s.takeWhile isDigitChar).isEmpty then none
  else some (digitsToNat (s.takeWhile isDigitChar), s.dropWhile isDigitChar)

/-- JavaScript property assignment `obj[k] = v` on an insertion-ordered
field list: an existing key keeps its position and takes the new value,
a fresh key is appended. -/
def jsObjInsert (fields : List (String × Json)) (k : String) (v : Json) :
    List (String × Json) :=
  if fields.any (fun p => p.1 == k) then
    fields.map (fun p => if p.1 == k then (k, v) else p)
  else fields ++ [(k, v)]

/-- Object construction from parsed key/value pairs, in order. -/
def jsObjFromPairs (pairs : List (String × Json)) : List (String × Json) :=
  pairs.foldl (fun acc kv => jsObjInsert acc kv.1 kv.2) []

mutual
/-- Parses one JSON value.  The fuel bounds recursion depth; `jsize` of the
value is always enough (see the `parseValue_serialize` lemmas). -/
def parseValue : Nat → List Char → Option (Json × List Char)
  | 0, _ => none
  | _ + 1, [] => none
  | fuel + 1, c :: rest =>
    if c = 'n' then
      match rest with
      | r1 :: r2 :: r3 :: rr =>
        if r1 = 'u' ∧ r2 = 'l' ∧ r3 = 'l' then some (Json.null, rr) else none
      | _ => none
    else if c = 't' then
      match rest with
      | r1 :: r2 :: r3 :: rr =>
        if r1 = 'r' ∧ r2 = 'u' ∧ r3 = 'e' then some (Json.bool true, rr) else none
      | _ => none
    else if c = 'f' then
      match rest with
      | r1 :: r2 :: r3 :: r4 :: rr =>
        if r1 = 'a' ∧ r2 = 'l' ∧ r3 = 's' ∧ r4 = 'e' then some (Json.bool false, rr) else none
      | _ => none
    else if c = '"' then
      (parseStringBody rest).map (fun r => (Json.str (String.mk r.1), r.2))
    else if c = '[' then
      match rest with
      | [] => none
      | r1 :: rr =>
        if r1 = ']' then some (Json.arr [], rr)
        else (parseItems fuel (r1 :: rr)).map (fun r => (Json.arr r.1, r.2))
    else if c = '{' then
      match rest with
      | [] => none
      | r1 :: rr =>
        if r1 = '}' then some (Json.obj [], rr)
        else (parseFields fuel (r1 :: rr)).map
          (fun r => (Json.obj (jsObjFromPairs r.1), r.2))
    else if c = '-' then
      (parseNatChars rest).map (fun r => (Json.num (-(r.1 : Int)), r.2))
    else if isDigitChar c then
      (parseNatChars (c :: rest)).map (fun r => (Json.num (r.1 : Int), r.2))
    else none

def parseItems : Nat → List Char → Option (List Json × List Char)
  | 0, _ => none
  | fuel + 1, s =>
    match parseValue fuel s with
    | none => none
    | some (v, r) =>
      match r with
      | [] => none
      | sep :: r2 =>
        if sep = ',' then (parseItems fuel r2).map (fun p => (v :: p.1, p.2))
        else if sep = ']' then some ([v], r2)
        else none

def parseFields : Nat → List Char → Option (List (String × Json) × List Char)
  | 0, _ => none
  | _ + 1, [] => none
  | fuel + 1, q :: rest =>
    if q = '"' then
      match parseStringBody rest with
      | none => none
      | some (key, r1) =>
        match r1 with
        | [] => none
        | colon :: r2 =>
          if colon = ':' then
            match parseValue fuel r2 with
            | none => none
            | some (v, r3) =>
              match r3 with
              | [] => none
              | sep :: r4 =>
                if sep = ',' then
                  (parseFields fuel r4).map (fun p => ((String.mk key, v) :: p.1, p.2))
                else if sep = '}' then some ([(String.mk key, v)], r4)
                else none
          else none
    else none
end

/-- `JSON.parse(s)`: parse one value consuming the entire text. -/
def jsonParse (s : List Char) : Option Json :=
  match parseValue (s.length + 1) s with
  | some (v, []) => some v
  | _ => none

/-! ## UTF-8 (Buffer.from(string, "utf8") and buffer.toString("utf8")) -/

/-- UTF-8 encoding of one Unicode scalar value. -/
def utf8EncodeChar (c : Char) : List Nat :=
  if c.toNat < 0x80 then [c.toNat]
  else if c.toNat < 0x800 then [0xC0 + c.toNat / 0x40, 0x80 + c.toNat % 0x40]
  else if c.toNat < 0x10000 then
    [0xE0 + c.toNat / 0x1000, 0x80 + c.toNat / 0x40 % 0x40, 0x80 + c.toNat % 0x40]
  else
    [0xF0 + c.toNat / 0x40000, 0x80 + c.toNat / 0x1000 % 0x40,
     0x80 + c.toNat / 0x40 % 0x40, 0x80 + c.toNat % 0x40]

/-- `Buffer.from(s, "utf8")`. -/
def utf8Encode (s : List Char) : List Nat := (s.map utf8EncodeChar).flatten

/-- U+FFFD, the replacement character substituted for invalid sequences. -/
def replChar : Char := Char.ofNat 0xFFFD

/-- One step of lossy UTF-8 decoding: decode the character led by `b1`
and return it with the remaining bytes.  On valid UTF-8 this is exact; on
invalid sequences it substitutes U+FFFD, consuming the offending bytes
(Node's exact resynchronisation for invalid input differs in how many
bytes one U+FFFD covers, but no claim exercises invalid input). -/
def utf8Step (b1 : Nat) (rest : List Nat) : Char × List Nat :=
  if b1 < 0x80 then (Char.ofNat b1, rest)
  else if b1 < 0xC0 then (replChar, rest)
  else if b1 < 0xE0 then
    match rest with
    | b2 :: rest2 =>
      (if 0x80 ≤ b2 ∧ b2 < 0xC0 ∧ 0x80 ≤ (b1 - 0xC0) * 0x40 + (b2 - 0x80) then
        Char.ofNat ((b1 - 0xC0) * 0x40 + (b2 - 0x80))
      else replChar, rest2)
    | [] => (replChar, [])
  else if b1 < 0xF0 then
    match rest with
    | b2 :: b3 :: rest3 =>
      (if (0x80 ≤ b2 ∧ b2 < 0xC0) ∧ (0x80 ≤ b3 ∧ b3 < 0xC0)
          ∧ 0x800 ≤ (b1 - 0xE0) * 0x1000 + (b2 - 0x80) * 0x40 + (b3 - 0x80)
          ∧ Nat.isValidChar ((b1 - 0xE0) * 0x1000 + (b2 - 0x80) * 0x40 + (b3 - 0x80)) then
        Char.ofNat ((b1 - 0xE0) * 0x1000 + (b2 - 0x80) * 0x40 + (b3 - 0x80))
      else replChar, rest3)
    | _ => (replChar, [])
  else if b1 < 0xF8 then
    match rest with
    | b2 :: b3 :: b4 :: rest4 =>
      (if (0x80 ≤ b2 ∧ b2 < 0xC0) ∧ (0x80 ≤ b3 ∧ b3 < 0xC0) ∧ (0x80 ≤ b4 ∧ b4 < 0xC0)
          ∧ 0x10000 ≤ (b1 - 0xF0) * 0x40000 + (b2 - 0x80) * 0x1000
              + (b3 - 0x80) * 0x40 + (b4 - 0x80)
          ∧ (b1 - 0xF0) * 0x40000 + (b2 - 0x80) * 0x1000
              + (b3 - 0x80) * 0x40 + (b4 - 0x80) < 0x110000 then
        Char.ofNat ((b1 - 0xF0) * 0x40000 + (b2 - 0x80) * 0x1000
          + (b3 - 0x80) * 0x40 + (b4 - 0x80))
      else replChar, rest4)
    | _ => (replChar, [])
  else (replChar, rest)

/-- Iterated decoding; the fuel (the byte count is always enough, since
every step consumes at least the lead byte) keeps recursion structural. -/
def utf8DecodeLossyAux : Nat → List Nat → List Char
  | 0, _ => []
  | _ + 1, [] => []
  | fuel + 1, b1 :: rest =>
    (utf8Step b1 rest).1 :: utf8DecodeLossyAux fuel (utf8Step b1 rest).2

/-- `buffer.toString("utf8")`: total (lossy) UTF-8 decoding. -/
def utf8DecodeLossy (bytes : List Nat) : List Char :=
  utf8DecodeLossyAux bytes.length bytes

/-! ## Framing codec and request pipeline -/

/-- `if (messageString.charCodeAt(0) === 0xfeff) messageString.substring(1)`
(socketClientHandler.js lines 107–110). -/
def stripBOM : List Char → List Char
  | [] => []
  | c :: rest => if c.toNat = 0xFEFF then rest else c :: rest

/-- `sendJsonResponse` framing (socketClientHandler.js lines 220–225):
`Buffer.concat([Buffer.from(JSON.stringify(obj), "utf8"), Buffer.from([NULL_BYTE])])`. -/
def encodeFrame (responseObject : Json) : List Nat :=
  utf8Encode (jsonSerialize responseObject) ++ [NULL_BYTE]

/-- Frame decoding as performed by `dataEventHandler` on a terminator-bearing
byte sequence: bytes strictly before the first terminator, decoded as UTF-8,
BOM-stripped, and JSON-parsed. -/
def decodeFrame (bytes : List Nat) : Option Json :=
  match indexOfNullByte bytes with
  | none => none
  | some i => jsonParse (stripBOM (utf8DecodeLossy (bytes.take i)))

/-- A response object written back to the client (`success` plus optional
`error`; success payload fields of the injected handler are irrelevant to
the protocol core and omitted). -/
structure Response where
  success : Bool
  error : Option String := none
  deriving Repr, DecidableEq

/-- Observable per-connection events: a response write and the close. -/
inductive ConnEvent where
  /-- `sendJsonResponse` invoked with this response object. -/
  | respond (response : Response) : ConnEvent
  /-- `firmlyCloseClientConnection` invoked. -/
  | close : ConnEvent
  deriving Repr, DecidableEq

/-- `receiveClientRequest` as a function of the inbound chunk sequence.
`jsonErrorMessage` models the platform-dependent message text of the
exception thrown by `JSON.parse` (the code embeds `jsonError.message`
into its rejection reason). -/
def receiveClientRequest (jsonErrorMessage : String → String) (chunks : List Chunk) :
    Except String Json :=
  match receiveLoop none chunks with
  | RecvOutcome.overflow =>
    Except.error ("Message size exceeds limit of " ++ toString MAX_BUFFER_SIZE ++ " bytes")
  | RecvOutcome.incomplete _ =>
    Except.error "Connection timeout - message incomplete"
  | RecvOutcome.frame m =>
    match jsonParse (stripBOM (utf8DecodeLossy m)) with
    | some requestObject => Except.ok requestObject
    | none =>
      Except.error ("Invalid JSON in message: "
        ++ jsonErrorMessage (String.mk (stripBOM (utf8DecodeLossy m))))

/-- JavaScript truthiness of a JSON-parsed value (`undefined`, `null`,
`false`, `0`, `NaN` and the empty string are falsy; `JSON.parse` never
yields `undefined` or `NaN`). -/
def jsTruthy : Json → Bool
  | Json.null => false
  | Json.bool b => b
  | Json.num n => decide (n ≠ 0)
  | Json.str s => !(s == "")
  | Json.arr _ => true
  | Json.obj _ => true

/-- JavaScript property access `v[k]` on a non-null base value
(`undefined`, modelled `none`, for primitives, arrays and missing keys; a
duplicate key — impossible in `JSON.parse` output — reads its last value).
Access on `null` throws a `TypeError` in JavaScript; the one place the
code can perform it, `validateClientRequest`, handles that case before
this function is consulted. -/
def jsGet (v : Json) (k : String) : Option Json :=
  match v with
  | Json.obj fields => ((fields.reverse).find? (fun p => p.1 == k)).map (fun p => p.2)
  | _ => none

/-- JavaScript strict equality `v === s` against a string literal. -/
def jsStrictEqStr (v : Json) (s : String) : Bool :=
  match v with
  | Json.str t => t == s
  | _ => false

/-- Result of `validateClientRequest` (socketClientHandler.js lines
190–211): the request object marked valid, or `{isValid: false, error}`. -/
inductive ValidationResult where
  | valid (requestObject : Json) : ValidationResult
  | invalid (error : String) : ValidationResult
  deriving Repr

/-- JavaScript `v || ""` on a property-access result (`undefined` and
falsy values fall through to the empty string). -/
def jsOrEmptyStr (v : Option Json) : Json :=
  match v with
  | some a => if jsTruthy a then a else Json.str ""
  | none => Json.str ""

/-- JavaScript truthiness of a property-access result (`undefined` is
falsy). -/
def jsTruthyOpt (v : Option Json) : Bool :=
  match v with
  | some p => jsTruthy p
  | none => false

/-- `validateClientRequest(requestObject)` (socketClientHandler.js lines
190–211).  The body runs inside `try`: `const action = requestObject.action
|| ""` throws a `TypeError` when the parsed request is JSON `null` (the
only `JSON.parse` output on which property access throws), and the `catch`
returns `{isValid: false, error: "Failed to process request: <message>"}`;
`typeErrorMessage` models the platform-dependent `TypeError` message text.
On every other value the body runs to completion:
`action === "set-interpreter" && requestObject.pythonPath` decides between
the valid request object and `{isValid: false, error: "Unsupported
request: <JSON.stringify(requestObject)>"}`. -/
def validateClientRequest (typeErrorMessage : String) (requestObject : Json) :
    ValidationResult :=
  match requestObject with
  | Json.null =>
    ValidationResult.invalid ("Failed to process request: " ++ typeErrorMessage)
  | _ =>
    if jsStrictEqStr (jsOrEmptyStr (jsGet requestObject "action")) "set-interpreter"
        && jsTruthyOpt (jsGet requestObject "pythonPath") then
      ValidationResult.valid requestObject
    else
      ValidationResult.invalid
        ("Unsupported request: " ++ String.mk (jsonSerialize requestObject))

/-- The validate-and-dispatch tail of `handleClientConnection` (lines
52–62) applied to a parsed request object.  `switchInterpreter` is the
injected handler, receiving `requestObject.pythonPath` and
`requestObject.shortName`; an invalid request throws, is caught, and
`handleClientError` writes `Error - <reason>`; `finally` closes. -/
def processRequest (switchInterpreter : Option Json → Option Json → Response)
    (typeErrorMessage : String) (requestObject : Json) : List ConnEvent :=
  match validateClientRequest typeErrorMessage requestObject with
  | ValidationResult.invalid e =>
    [ConnEvent.respond { success := false, error := some ("Error - " ++ e) }, ConnEvent.close]
  | ValidationResult.valid r =>
    [ConnEvent.respond (switchInterpreter (jsGet r "pythonPath") (jsGet r "shortName")),
     ConnEvent.close]

/-- `handleClientConnection` after admission, as a function of the inbound
chunks: receive, parse, validate, dispatch, respond, close.  Error paths
respond `success:false` with `Error - <reason>` (`handleClientError`) and
close (the `finally` block). -/
def runConnection (switchInterpreter : Option Json → Option Json → Response)
    (jsonErrorMessage : String → String) (typeErrorMessage : String)
    (chunks : List Chunk) : List ConnEvent :=
  match receiveClientRequest jsonErrorMessage chunks with
  | Except.error e =>
    [ConnEvent.respond { success := false, error := some ("Error - " ++ e) }, ConnEvent.close]
  | Except.ok requestObject => processRequest switchInterpreter typeErrorMessage requestObject

/-- The responses written during a connection's event trace. -/
def responsesOf (events : List ConnEvent) : List Response :=
  events.filterMap (fun e => match e with
    | ConnEvent.respond r => some r
    | ConnEvent.close => none)

/-- Spec-side predicate (for comparison with the code's behaviour): the
claim's words "the pythonPath field is a non-empty string". -/
def isNonEmptyStringField : Option Json → Bool
  | some (Json.str s) => !(s == "")
  | _ => false

/-! ## Admission control (handleClientConnection, lines 28–46) -/

/-- Outcome of the admission check for one new connection. -/
inductive AdmitOutcome where
  /-- Rejected: this response is written and the connection is closed,
  never having been added to the tracker. -/
  | rejected (response : Response) : AdmitOutcome
  /-- Admitted: `_connectedAt` is stamped with the current time and the
  connection proceeds to the request pipeline. -/
  | admitted (connectedAt : Nat) : AdmitOutcome
  deriving Repr, DecidableEq

/-- The admission prefix of `handleClientConnection`: the capacity check
against `activeConnections.size`, then either rejection (set untouched) or
`addActiveConnectionToTracker` (timestamp and insert). -/
def handleNewConnection (activeConnections : Finset Nat) (conn now : Nat) :
    Finset Nat × AdmitOutcome :=
  if activeConnections.card ≥ MAX_CONCURRENT_CLIENT_CONNECTIONS then
    (activeConnections,
     AdmitOutcome.rejected { success := false, error := some "Server connection limit reached" })
  else
    (insert conn activeConnections, AdmitOutcome.admitted now)

/-! ## Graceful shutdown (socketServerManager.js, gracefullyShutdownServer) -/

/-- Observable events of `gracefullyShutdownServer`, in program order. -/
inductive ShutdownEvent where
  /-- `connection.end()` attempted on an active connection. -/
  | endConn (conn : Nat) : ShutdownEvent
  /-- `connection.destroy()` fallback for that connection. -/
  | destroyConn (conn : Nat) : ShutdownEvent
  /-- `socketServer.close(...)` completed (its confirmation callback runs). -/
  | closeServer : ShutdownEvent
  /-- `fs.unlinkSync` of the socket file at this path. -/
  | deleteSocketFile (path : String) : ShutdownEvent
  /-- `socketServer._socketPath` was undefined: error logged, no deletion. -/
  | missingPathError : ShutdownEvent
  /-- The returned promise resolves. -/
  | resolve : ShutdownEvent
  deriving Repr, DecidableEq

/-- Per-connection close inside the shutdown loop: `connection.end()`,
falling back to `connection.destroy()` only when `end` throws (an inner
throw from `destroy` itself is swallowed and produces no further event). -/
def closeActiveConnection (endThrows : Nat → Bool) (conn : Nat) : List ShutdownEvent :=
  if endThrows conn then [ShutdownEvent.endConn conn, ShutdownEvent.destroyConn conn]
  else [ShutdownEvent.endConn conn]

/-- `_deleteStaleSocketFile`: unlink the socket file if it exists. -/
def deleteStaleSocketFile (fileExists : String → Bool) (path : String) : List ShutdownEvent :=
  if fileExists path then [ShutdownEvent.deleteSocketFile path] else []

/-- Event trace of `gracefullyShutdownServer(socketServer)`: close every
tracked connection, close the listening server, and — inside the close
confirmation callback — delete the socket file at the recorded path (or
log an error when no path was recorded) and only then resolve. -/
def gracefullyShutdownServer (activeConnections : List Nat) (endThrows : Nat → Bool)
    (socketPath : Option String) (fileExists : String → Bool) : List ShutdownEvent :=
  (activeConnections.map (closeActiveConnection endThrows)).flatten
    ++ [ShutdownEvent.closeServer]
    ++ (match socketPath with
        | some p => deleteStaleSocketFile fileExists p
        | none => [ShutdownEvent.missingPathError])
    ++ [ShutdownEvent.resolve]

/-! ### Basic receive-loop lemmas -/

theorem indexOfNullByte_of_not_mem : ∀ {chunk : Chunk}, NULL_BYTE ∉ chunk →
    indexOfNullByte chunk = none := by
  intro chunk h
  induction chunk with
  | nil => rfl
  | cons b rest ih =>
    simp only [List.mem_cons, not_or] at h
    have hb : ¬(b = NULL_BYTE) := fun e => h.1 e.symm
    simp only [indexOfNullByte, if_neg hb, ih h.2]
    rfl

theorem indexOfNullByte_first : ∀ {m rest : List Nat}, NULL_BYTE ∉ m →
    indexOfNullByte (m ++ NULL_BYTE :: rest) = some m.length := by
  intro m rest h
  induction m with
  | nil => simp [indexOfNullByte]
  | cons b t ih =>
    simp only [List.mem_cons, not_or] at h
    have hb : ¬(b = NULL_BYTE) := fun e => h.1 e.symm
    simp only [List.cons_append, indexOfNullByte, if_neg hb, List.append_eq, ih h.2]
    rfl

/-- Splitting equation: when the first part is at most as long as the
target prefix, it is an initial segment of it. -/
theorem append_split_short : ∀ (c : List Nat) (K m L : List Nat),
    c ++ K = m ++ L → c.length ≤ m.length →
    c = m.take c.length ∧ K = m.drop c.length ++ L := by
  intro c
  induction c with
  | nil => intro K m L h _; simpa using h
  | cons x c' ih =>
    intro K m L h hlen
    cases m with
    | nil => simp at hlen
    | cons y m' =>
      simp only [List.cons_append, List.cons.injEq] at h
      obtain ⟨rfl, h2⟩ := h
      simp only [List.length_cons, Nat.succ_le_succ_iff] at hlen
      obtain ⟨h3, h4⟩ := ih K m' L h2 hlen
      constructor
      · simp only [List.length_cons, List.take_succ_cons]
        rw [← h3]
      · simpa using h4

/-- Splitting equation: when the first part is strictly longer than the
terminator-free prefix `m`, the first terminator of the first part sits at
index `m.length` and the bytes before it are exactly `m`. -/
theorem append_split_long : ∀ (m : List Nat) (c K rest : List Nat),
    c ++ K = m ++ NULL_BYTE :: rest → NULL_BYTE ∉ m → m.length < c.length →
    indexOfNullByte c = some m.length ∧ c.take m.length = m := by
  intro m
  induction m with
  | nil =>
    intro c K rest h _ hlen
    cases c with
    | nil => simp at hlen
    | cons x c' =>
      simp only [List.nil_append, List.cons_append, List.cons.injEq] at h
      refine ⟨?_, by simp⟩
      simp only [indexOfNullByte, if_pos h.1, List.length_nil]
  | cons y m' ih =>
    intro c K rest h hm hlen
    simp only [List.mem_cons, not_or] at hm
    cases c with
    | nil => simp at hlen
    | cons x c' =>
      simp only [List.cons_append, List.cons.injEq] at h
      obtain ⟨rfl, h2⟩ := h
      simp only [List.length_cons, Nat.succ_lt_succ_iff] at hlen
      obtain ⟨h3, h4⟩ := ih c' K rest h2 hm.2 hlen
      constructor
      · have hb : ¬(x = NULL_BYTE) := fun e => hm.1 e.symm
        simp only [indexOfNullByte, if_neg hb, h3]
        rfl
      · simp only [List.length_cons, List.take_succ_cons]
        rw [h4]

/-- A chunk free of the terminator and fitting the buffer is accumulated. -/
theorem dataEventStep_accumulate {buf : List Nat} {chunk : Chunk}
    (hterm : NULL_BYTE ∉ chunk) (hsize : buf.length + chunk.length ≤ MAX_BUFFER_SIZE) :
    dataEventStep (some buf) chunk = RecvStep.cont (some (buf ++ chunk)) := by
  unfold dataEventStep
  rw [indexOfNullByte_of_not_mem hterm]
  simp only []
  rw [if_neg (by omega)]

/-- A chunk free of the terminator that would overflow the buffer rejects. -/
theorem dataEventStep_overflow {buf : List Nat} {chunk : Chunk}
    (hterm : NULL_BYTE ∉ chunk) (hsize : MAX_BUFFER_SIZE < buf.length + chunk.length) :
    dataEventStep (some buf) chunk = RecvStep.overflow := by
  unfold dataEventStep
  rw [indexOfNullByte_of_not_mem hterm]
  simp only []
  rw [if_pos (by omega)]

/-- A chunk whose first terminator sits at index `i` completes the frame,
with no size check at all. -/
theorem dataEventStep_frame {chunk : Chunk} {i : Nat}
    (h : indexOfNullByte chunk = some i) (buf : Option (List Nat)) :
    dataEventStep buf chunk
      = RecvStep.frame ((match buf with | none => [] | some b => b) ++ chunk.take i) := by
  unfold dataEventStep
  rw [h]
  cases buf <;> simp

/-- A `null` buffer behaves exactly like an empty buffer. -/
theorem dataEventStep_none (chunk : Chunk) :
    dataEventStep none chunk = dataEventStep (some []) chunk := by
  unfold dataEventStep
  cases h : indexOfNullByte chunk <;> simp

theorem receiveLoop_cons (buf : Option (List Nat)) (c : Chunk) (cs : List Chunk) :
    receiveLoop buf (c :: cs)
      = match dataEventStep buf c with
        | RecvStep.frame m => RecvOutcome.frame m
        | RecvStep.overflow => RecvOutcome.overflow
        | RecvStep.cont b => receiveLoop b cs := rfl

theorem receiveLoop_none_eq_empty (c : Chunk) (cs : List Chunk) :
    receiveLoop none (c :: cs) = receiveLoop (some []) (c :: cs) := by
  rw [receiveLoop_cons, receiveLoop_cons, dataEventStep_none]

theorem receiveLoop_cons_cont {buf b : Option (List Nat)} {c : Chunk}
    (h : dataEventStep buf c = RecvStep.cont b) (cs : List Chunk) :
    receiveLoop buf (c :: cs) = receiveLoop b cs := by
  rw [receiveLoop_cons, h]

theorem receiveLoop_cons_frame {buf : Option (List Nat)} {c : Chunk} {m : List Nat}
    (h : dataEventStep buf c = RecvStep.frame m) (cs : List Chunk) :
    receiveLoop buf (c :: cs) = RecvOutcome.frame m := by
  rw [receiveLoop_cons, h]

theorem receiveLoop_cons_overflow {buf : Option (List Nat)} {c : Chunk}
    (h : dataEventStep buf c = RecvStep.overflow) (cs : List Chunk) :
    receiveLoop buf (c :: cs) = RecvOutcome.overflow := by
  rw [receiveLoop_cons, h]

/-- Core lemma: if the concatenation of the pending chunks is the
terminator-free message `m`, then the terminator, then anything, and the
buffer plus `m` fits the cap, the loop completes the frame `buf ++ m` —
the bytes after the first terminator are never examined. -/
theorem receiveLoop_frame : ∀ (chunks : List Chunk) (buf m rest : List Nat),
    chunks.flatten = m ++ NULL_BYTE :: rest → NULL_BYTE ∉ m →
    buf.length + m.length ≤ MAX_BUFFER_SIZE →
    receiveLoop (some buf) chunks = RecvOutcome.frame (buf ++ m) := by
  intro chunks
  induction chunks with
  | nil =>
    intro buf m rest hjoin
    simp only [List.flatten_nil] at hjoin
    exact absurd hjoin.symm (List.append_ne_nil_of_right_ne_nil _ (List.cons_ne_nil _ _))
  | cons c cs ih =>
    intro buf m rest hjoin hm hsize
    simp only [List.flatten_cons] at hjoin
    by_cases hcm : c.length ≤ m.length
    · -- the whole chunk is an initial segment of m: terminator-free
      obtain ⟨hc, hK⟩ := append_split_short c cs.flatten m (NULL_BYTE :: rest) hjoin hcm
      have hcterm : NULL_BYTE ∉ c := by
        rw [hc]; intro hmem; exact hm (List.mem_of_mem_take hmem)
      rw [receiveLoop_cons_cont (dataEventStep_accumulate hcterm
        (by have := List.length_take_le c.length m; omega))]
      have hdroplen : (m.drop c.length).length = m.length - c.length := List.length_drop ..
      have := ih (buf ++ c) (m.drop c.length) rest hK
        (fun hmem => hm (List.mem_of_mem_drop hmem))
        (by rw [List.length_append, hdroplen]; omega)
      rw [this, List.append_assoc]
      congr 1
      nth_rewrite 1 [hc]
      exact congrArg (fun t => buf ++ t) (List.take_append_drop (List.length c) m)
    · -- the chunk covers the terminator: the frame completes here
      push_neg at hcm
      obtain ⟨hidx, htake⟩ := append_split_long m c cs.flatten rest hjoin hm hcm
      rw [receiveLoop_cons_frame (dataEventStep_frame hidx (some buf)), htake]

/-- Terminator-free chunks within the cap accumulate without error. -/
theorem receiveLoop_incomplete : ∀ (chunks : List Chunk) (buf : List Nat),
    (∀ c ∈ chunks, NULL_BYTE ∉ c) →
    buf.length + chunks.flatten.length ≤ MAX_BUFFER_SIZE →
    receiveLoop (some buf) chunks = RecvOutcome.incomplete (some (buf ++ chunks.flatten)) := by
  intro chunks
  induction chunks with
  | nil => intro buf _ _; simp [receiveLoop]
  | cons c cs ih =>
    intro buf hterm hsize
    simp only [List.flatten_cons, List.length_append] at hsize
    rw [receiveLoop_cons_cont
      (dataEventStep_accumulate (hterm c (List.mem_cons_self c cs)) (by omega)),
      ih (buf ++ c) (fun x hx => hterm x (List.mem_cons_of_mem _ hx))
        (by rw [List.length_append]; omega)]
    simp [List.flatten_cons, List.append_assoc]

/-- Once the accumulated buffer plus a terminator-free chunk exceeds the
cap, the loop rejects with the overflow outcome, whatever follows. -/
theorem receiveLoop_overflow : ∀ (good : List Chunk) (buf c : List Nat) (more : List Chunk),
    (∀ x ∈ good, NULL_BYTE ∉ x) → NULL_BYTE ∉ c →
    buf.length + good.flatten.length ≤ MAX_BUFFER_SIZE →
    MAX_BUFFER_SIZE < buf.length + good.flatten.length + c.length →
    receiveLoop (some buf) (good ++ c :: more) = RecvOutcome.overflow := by
  intro good
  induction good with
  | nil =>
    intro buf c more _ hc _ hover
    simp only [List.flatten_nil, List.length_nil, Nat.add_zero] at hover
    rw [List.nil_append, receiveLoop_cons_overflow (dataEventStep_overflow hc hover)]
  | cons g gs ih =>
    intro buf c more hgood hc hfit hover
    simp only [List.flatten_cons, List.length_append] at hfit hover
    rw [List.cons_append, receiveLoop_cons_cont
      (dataEventStep_accumulate (hgood g (List.mem_cons_self g gs)) (by omega))]
    exact ih (buf ++ g) c more (fun x hx => hgood x (List.mem_cons_of_mem _ hx)) hc
      (by rw [List.length_append]; omega)
      (by rw [List.length_append]; omega)

/-! ### UTF-8 codec lemmas -/

theorem isValidChar_toNat (c : Char) : Nat.isValidChar c.toNat := c.valid

theorem utf8Step_length (b1 : Nat) (rest : List Nat) :
    (utf8Step b1 rest).2.length ≤ rest.length := by
  unfold utf8Step
  repeat' split
  all_goals simp_all
  all_goals omega

theorem utf8DecodeLossyAux_nil : ∀ fuel, utf8DecodeLossyAux fuel [] = [] := by
  intro fuel
  cases fuel <;> rfl

theorem utf8DecodeLossyAux_fuel : ∀ (fuel₁ fuel₂ : Nat) (bytes : List Nat),
    bytes.length ≤ fuel₁ → bytes.length ≤ fuel₂ →
    utf8DecodeLossyAux fuel₁ bytes = utf8DecodeLossyAux fuel₂ bytes := by
  intro fuel₁
  induction fuel₁ with
  | zero =>
    intro fuel₂ bytes h1 _
    have : bytes = [] := List.length_eq_zero.1 (by omega)
    rw [this, utf8DecodeLossyAux_nil, utf8DecodeLossyAux_nil]
  | succ f ih =>
    intro fuel₂ bytes h1 h2
    cases bytes with
    | nil => rw [utf8DecodeLossyAux_nil, utf8DecodeLossyAux_nil]
    | cons b1 rest =>
      cases fuel₂ with
      | zero => simp at h2
      | succ f2 =>
        show (utf8Step b1 rest).1 :: utf8DecodeLossyAux f (utf8Step b1 rest).2
          = (utf8Step b1 rest).1 :: utf8DecodeLossyAux f2 (utf8Step b1 rest).2
        have hlen := utf8Step_length b1 rest
        simp only [List.length_cons] at h1 h2
        rw [ih f2 (utf8Step b1 rest).2 (by omega) (by omega)]

theorem utf8Step_ascii {b1 : Nat} (h : b1 < 0x80) (rest : List Nat) :
    utf8Step b1 rest = (Char.ofNat b1, rest) := by
  unfold utf8Step
  rw [if_pos h]

theorem utf8Step_two {b1 b2 : Nat} (h1 : 0xC0 ≤ b1) (h2 : b1 < 0xE0)
    (h3 : 0x80 ≤ b2) (h4 : b2 < 0xC0) (h5 : 0x80 ≤ (b1 - 0xC0) * 0x40 + (b2 - 0x80))
    (rest : List Nat) :
    utf8Step b1 (b2 :: rest) = (Char.ofNat ((b1 - 0xC0) * 0x40 + (b2 - 0x80)), rest) := by
  unfold utf8Step
  rw [if_neg (by omega), if_neg (by omega), if_pos (by omega)]
  dsimp only
  rw [if_pos ⟨h3, h4, h5⟩]

theorem utf8Step_three {b1 b2 b3 : Nat} (h1 : 0xE0 ≤ b1) (h2 : b1 < 0xF0)
    (h3 : 0x80 ≤ b2) (h4 : b2 < 0xC0) (h5 : 0x80 ≤ b3) (h6 : b3 < 0xC0)
    (h7 : 0x800 ≤ (b1 - 0xE0) * 0x1000 + (b2 - 0x80) * 0x40 + (b3 - 0x80))
    (h8 : Nat.isValidChar ((b1 - 0xE0) * 0x1000 + (b2 - 0x80) * 0x40 + (b3 - 0x80)))
    (rest : List Nat) :
    utf8Step b1 (b2 :: b3 :: rest)
      = (Char.ofNat ((b1 - 0xE0) * 0x1000 + (b2 - 0x80) * 0x40 + (b3 - 0x80)), rest) := by
  unfold utf8Step
  rw [if_neg (by omega), if_neg (by omega), if_neg (by omega), if_pos (by omega)]
  dsimp only
  rw [if_pos ⟨⟨h3, h4⟩, ⟨h5, h6⟩, h7, h8⟩]

theorem utf8Step_four {b1 b2 b3 b4 : Nat} (h1 : 0xF0 ≤ b1) (h2 : b1 < 0xF8)
    (h3 : 0x80 ≤ b2) (h4 : b2 < 0xC0) (h5 : 0x80 ≤ b3) (h6 : b3 < 0xC0)
    (h7 : 0x80 ≤ b4) (h8 : b4 < 0xC0)
    (h9 : 0x10000 ≤ (b1 - 0xF0) * 0x40000 + (b2 - 0x80) * 0x1000 + (b3 - 0x80) * 0x40 + (b4 - 0x80))
    (h10 : (b1 - 0xF0) * 0x40000 + (b2 - 0x80) * 0x1000 + (b3 - 0x80) * 0x40 + (b4 - 0x80) < 0x110000)
    (rest : List Nat) :
    utf8Step b1 (b2 :: b3 :: b4 :: rest)
      = (Char.ofNat ((b1 - 0xF0) * 0x40000 + (b2 - 0x80) * 0x1000
          + (b3 - 0x80) * 0x40 + (b4 - 0x80)), rest) := by
  unfold utf8Step
  rw [if_neg (by omega), if_neg (by omega), if_neg (by omega), if_neg (by omega),
    if_pos (by omega)]
  dsimp only
  rw [if_pos ⟨⟨h3, h4⟩, ⟨h5, h6⟩, ⟨h7, h8⟩, h9, h10⟩]

/-- Unrolls one decoding step when the step function's value is known. -/
theorem utf8DecodeLossy_cons {b1 : Nat} {rest remaining : List Nat} {c : Char}
    (hstep : utf8Step b1 rest = (c, remaining)) :
    utf8DecodeLossy (b1 :: rest) = c :: utf8DecodeLossy remaining := by
  show utf8DecodeLossyAux ((b1 :: rest).length) (b1 :: rest) = _
  have : utf8DecodeLossyAux ((b1 :: rest).length) (b1 :: rest)
      = (utf8Step b1 rest).1 :: utf8DecodeLossyAux rest.length (utf8Step b1 rest).2 := rfl
  rw [this, hstep]
  have hlen : remaining.length ≤ rest.length := by
    have := utf8Step_length b1 rest
    rw [hstep] at this
    exact this
  rw [utf8DecodeLossyAux_fuel rest.length remaining.length remaining hlen (le_refl _)]
  rfl

/-- Decoding is left inverse to encoding, one character at a time. -/
theorem utf8DecodeLossy_encodeChar (c : Char) (rest : List Nat) :
    utf8DecodeLossy (utf8EncodeChar c ++ rest) = c :: utf8DecodeLossy rest := by
  have hvalid := isValidChar_toNat c
  unfold Nat.isValidChar at hvalid
  unfold utf8EncodeChar
  by_cases h1 : c.toNat < 0x80
  · rw [if_pos h1]
    simp only [List.cons_append, List.nil_append]
    rw [utf8DecodeLossy_cons (utf8Step_ascii h1 rest), Char.ofNat_toNat]
  · rw [if_neg h1]
    push_neg at h1
    by_cases h2 : c.toNat < 0x800
    · rw [if_pos h2]
      simp only [List.cons_append, List.nil_append]
      have hn : (0xC0 + c.toNat / 0x40 - 0xC0) * 0x40 + (0x80 + c.toNat % 0x40 - 0x80)
          = c.toNat := by omega
      rw [utf8DecodeLossy_cons (utf8Step_two (by omega) (by omega) (by omega) (by omega)
        (by omega) rest), hn, Char.ofNat_toNat]
    · push_neg at h2
      by_cases h3 : c.toNat < 0x10000
      · rw [if_neg (by omega), if_pos h3]
        simp only [List.cons_append, List.nil_append]
        have hn : (0xE0 + c.toNat / 0x1000 - 0xE0) * 0x1000
            + (0x80 + c.toNat / 0x40 % 0x40 - 0x80) * 0x40
            + (0x80 + c.toNat % 0x40 - 0x80) = c.toNat := by omega
        rw [utf8DecodeLossy_cons (utf8Step_three (by omega) (by omega) (by omega) (by omega)
          (by omega) (by omega) (by rw [hn]; omega)
          (by rw [hn]; unfold Nat.isValidChar; omega) rest), hn, Char.ofNat_toNat]
      · push_neg at h3
        rw [if_neg (by omega), if_neg (by omega)]
        simp only [List.cons_append, List.nil_append]
        have hmax : c.toNat < 0x110000 := by omega
        have hn : (0xF0 + c.toNat / 0x40000 - 0xF0) * 0x40000
            + (0x80 + c.toNat / 0x1000 % 0x40 - 0x80) * 0x1000
            + (0x80 + c.toNat / 0x40 % 0x40 - 0x80) * 0x40
            + (0x80 + c.toNat % 0x40 - 0x80) = c.toNat := by omega
        rw [utf8DecodeLossy_cons (utf8Step_four (by omega) (by omega) (by omega) (by omega)
          (by omega) (by omega) (by omega) (by omega)
          (by rw [hn]; omega) (by rw [hn]; omega) rest), hn, Char.ofNat_toNat]

/-- `buffer.toString("utf8")` is left inverse to `Buffer.from(s, "utf8")`. -/
theorem utf8DecodeLossy_encode (s : List Char) : utf8DecodeLossy (utf8Encode s) = s := by
  induction s with
  | nil => rfl
  | cons c cs ih =>
    show utf8DecodeLossy (utf8EncodeChar c ++ (cs.map utf8EncodeChar).flatten) = c :: cs
    rw [utf8DecodeLossy_encodeChar]
    exact congrArg (fun t => c :: t) ih

/-- Bytes of the UTF-8 encoding of a string with no NUL character never
contain the frame terminator. -/
theorem utf8Encode_no_null {s : List Char} (h : ∀ c ∈ s, c.toNat ≠ 0) :
    NULL_BYTE ∉ utf8Encode s := by
  induction s with
  | nil => simp [utf8Encode]
  | cons c cs ih =>
    intro hmem
    have hsplit : utf8Encode (c :: cs) = utf8EncodeChar c ++ utf8Encode cs := rfl
    rw [hsplit] at hmem
    rcases List.mem_append.1 hmem with hc | hcs
    · have hc0 : c.toNat ≠ 0 := h c (List.mem_cons_self c cs)
      unfold utf8EncodeChar at hc
      by_cases h1 : c.toNat < 0x80
      · rw [if_pos h1] at hc
        simp only [List.mem_singleton] at hc
        exact hc0 hc.symm
      · rw [if_neg h1] at hc
        push_neg at h1
        by_cases h2 : c.toNat < 0x800
        · rw [if_pos h2] at hc
          unfold NULL_BYTE at hc
          simp at hc
          omega
        · rw [if_neg h2] at hc
          by_cases h3 : c.toNat < 0x10000
          · rw [if_pos h3] at hc
            unfold NULL_BYTE at hc
            simp at hc
            omega
          · rw [if_neg h3] at hc
            unfold NULL_BYTE at hc
            simp at hc
            omega
    · exact ih (fun x hx => h x (List.mem_cons_of_mem _ hx)) hcs

/-! ### Decimal digit lemmas -/

theorem digitVal_hexDigitChar : ∀ n < 10,
    digitVal (hexDigitChar n) = n ∧ isDigitChar (hexDigitChar n) = true := by decide

theorem digitsToNat_append (ds : List Char) (d : Char) :
    digitsToNat (ds ++ [d]) = digitsToNat ds * 10 + digitVal d := by
  unfold digitsToNat
  rw [List.foldl_append]
  rfl

theorem natToCharsAux_spec : ∀ (fuel n : Nat), 0 < fuel → n < 10 ^ fuel →
    natToCharsAux fuel n ≠ []
    ∧ (∀ c ∈ natToCharsAux fuel n, isDigitChar c = true)
    ∧ digitsToNat (natToCharsAux fuel n) = n := by
  intro fuel
  induction fuel with
  | zero => intro n h; omega
  | succ f ih =>
    intro n _ hn
    by_cases hbase : n < 10
    · have hd := digitVal_hexDigitChar n hbase
      unfold natToCharsAux
      rw [if_pos hbase]
      refine ⟨by simp, by simpa using hd.2, ?_⟩
      show digitsToNat ([] ++ [hexDigitChar n]) = n
      rw [digitsToNat_append]
      unfold digitsToNat
      simpa using hd.1
    · push_neg at hbase
      have hpow : 10 ^ (f + 1) = 10 ^ f * 10 := Nat.pow_succ ..
      have hf : 0 < f := by
        rcases Nat.eq_zero_or_pos f with h0 | h0
        · rw [h0] at hn; simp at hn; omega
        · exact h0
      have hdiv : n / 10 < 10 ^ f := by omega
      obtain ⟨hne, hall, hval⟩ := ih (n / 10) hf hdiv
      have hd := digitVal_hexDigitChar (n % 10) (by omega)
      unfold natToCharsAux
      rw [if_neg (by omega)]
      refine ⟨by simp, ?_, ?_⟩
      · intro c hc
        rcases List.mem_append.1 hc with h | h
        · exact hall c h
        · rw [List.mem_singleton.1 h]; exact hd.2
      · rw [digitsToNat_append, hval, hd.1]
        omega

theorem natToChars_spec (n : Nat) :
    natToChars n ≠ []
    ∧ (∀ c ∈ natToChars n, isDigitChar c = true)
    ∧ digitsToNat (natToChars n) = n := by
  have h1 : n < 10 ^ n := Nat.lt_pow_self (by omega) n
  have h2 : (10 : Nat) ^ n ≤ 10 ^ (n + 1) := Nat.pow_le_pow_right (by omega) (by omega)
  exact natToCharsAux_spec (n + 1) n (by omega) (by omega)

theorem takeWhile_all_append {p : Char → Bool} : ∀ (ds rest : List Char),
    (∀ c ∈ ds, p c = true) → (∀ c, rest.head? = some c → p c = false) →
    (ds ++ rest).takeWhile p = ds ∧ (ds ++ rest).dropWhile p = rest := by
  intro ds
  induction ds with
  | nil =>
    intro rest _ hrest
    cases rest with
    | nil => exact ⟨rfl, rfl⟩
    | cons r rs =>
      have hr : p r = false := hrest r rfl
      constructor
      · show List.takeWhile p (r :: rs) = []
        rw [List.takeWhile_cons, hr]
        rfl
      · show List.dropWhile p (r :: rs) = r :: rs
        rw [List.dropWhile_cons, hr]
        rfl
  | cons d ds ih =>
    intro rest hall hrest
    have hd : p d = true := hall d (List.mem_cons_self d ds)
    obtain ⟨h1, h2⟩ := ih rest (fun c hc => hall c (List.mem_cons_of_mem _ hc)) hrest
    constructor
    · show List.takeWhile p (d :: (ds ++ rest)) = d :: ds
      rw [List.takeWhile_cons, hd]
      simp [h1]
    · show List.dropWhile p (d :: (ds ++ rest)) = rest
      rw [List.dropWhile_cons, hd]
      simpa using h2

theorem parseNatChars_natToChars (n : Nat) (rest : List Char)
    (hrest : ∀ c, rest.head? = some c → isDigitChar c = false) :
    parseNatChars (natToChars n ++ rest) = some (n, rest) := by
  obtain ⟨hne, hall, hval⟩ := natToChars_spec n
  obtain ⟨htake, hdrop⟩ := takeWhile_all_append (natToChars n) rest hall hrest
  unfold parseNatChars
  rw [htake, hdrop, if_neg (by simpa using hne), hval]

/-! ### String escaping round trip -/

theorem hexVal_hexDigitChar : ∀ n < 16, hexVal (hexDigitChar n) = some n := by decide

theorem parseStringStep_length : ∀ (c : Char) (rest : List Char) (u : Char) (r : List Char),
    parseStringStep c rest = StrStep.ch u r → r.length ≤ rest.length := by
  intro c rest u r h
  unfold parseStringStep at h
  repeat' split at h
  all_goals simp_all
  all_goals omega

theorem parseStringBodyAux_fuel : ∀ (fuel₁ fuel₂ : Nat) (s : List Char),
    s.length ≤ fuel₁ → s.length ≤ fuel₂ →
    parseStringBodyAux fuel₁ s = parseStringBodyAux fuel₂ s := by
  intro fuel₁
  induction fuel₁ with
  | zero =>
    intro fuel₂ s h1 _
    have : s = [] := List.length_eq_zero.1 (by omega)
    subst this
    cases fuel₂ <;> rfl
  | succ f ih =>
    intro fuel₂ s h1 h2
    cases s with
    | nil => cases fuel₂ <;> rfl
    | cons c rest =>
      cases fuel₂ with
      | zero => simp at h2
      | succ f2 =>
        show (match parseStringStep c rest with
          | StrStep.done r => some ([], r)
          | StrStep.fail => none
          | StrStep.ch u r => (parseStringBodyAux f r).map
              (fun (p : List Char × List Char) => (u :: p.1, p.2)))
          = (match parseStringStep c rest with
          | StrStep.done r => some ([], r)
          | StrStep.fail => none
          | StrStep.ch u r => (parseStringBodyAux f2 r).map
              (fun (p : List Char × List Char) => (u :: p.1, p.2)))
        cases hstep : parseStringStep c rest with
        | done r => rfl
        | fail => rfl
        | ch u r =>
          have hlen := parseStringStep_length c rest u r hstep
          simp only [List.length_cons] at h1 h2
          show (parseStringBodyAux f r).map
              (fun (p : List Char × List Char) => (u :: p.1, p.2))
            = (parseStringBodyAux f2 r).map
              (fun (p : List Char × List Char) => (u :: p.1, p.2))
          rw [ih f2 r (by omega) (by omega)]

/-- Unrolls one string-parsing step when the step's value is known. -/
theorem parseStringBody_cons_done {c : Char} {rest r : List Char}
    (h : parseStringStep c rest = StrStep.done r) :
    parseStringBody (c :: rest) = some ([], r) := by
  show (match parseStringStep c rest with
    | StrStep.done r => some ([], r)
    | StrStep.fail => none
    | StrStep.ch u r => (parseStringBodyAux rest.length r).map (fun p => (u :: p.1, p.2)))
    = some ([], r)
  rw [h]

/-- Unrolls one string-parsing step when it decodes a character. -/
theorem parseStringBody_cons_ch {c u : Char} {rest r : List Char}
    (h : parseStringStep c rest = StrStep.ch u r) :
    parseStringBody (c :: rest) = (parseStringBody r).map (fun p => (u :: p.1, p.2)) := by
  show (match parseStringStep c rest with
    | StrStep.done r => some ([], r)
    | StrStep.fail => none
    | StrStep.ch u r => (parseStringBodyAux rest.length r).map (fun p => (u :: p.1, p.2)))
    = (parseStringBody r).map (fun p => (u :: p.1, p.2))
  rw [h]
  show (parseStringBodyAux rest.length r).map (fun p => (u :: p.1, p.2))
    = (parseStringBody r).map (fun p => (u :: p.1, p.2))
  have hlen := parseStringStep_length c rest u r h
  unfold parseStringBody
  rw [parseStringBodyAux_fuel rest.length r.length r hlen (le_refl _)]

theorem parseStringBody_quote (rest : List Char) :
    parseStringBody ('"' :: rest) = some ([], rest) := by
  apply parseStringBody_cons_done
  unfold parseStringStep
  rw [if_pos rfl]

theorem parseStringBody_raw {c : Char} (h1 : c ≠ '"') (h2 : c ≠ '\\') (T : List Char) :
    parseStringBody (c :: T) = (parseStringBody T).map (fun r => (c :: r.1, r.2)) := by
  apply parseStringBody_cons_ch
  unfold parseStringStep
  rw [if_neg h1, if_neg h2]

theorem parseStringBody_twochar {e u : Char} (he : e ≠ 'u') (hu : unescapeChar e = some u)
    (T : List Char) :
    parseStringBody ('\\' :: e :: T) = (parseStringBody T).map (fun r => (u :: r.1, r.2)) := by
  apply parseStringBody_cons_ch
  unfold parseStringStep
  rw [if_neg (by decide), if_pos rfl]
  dsimp only
  rw [if_neg he, hu]

theorem parseStringBody_unicode (n : Nat) (hn : n < 0x20) (T : List Char) :
    parseStringBody ('\\' :: 'u' :: '0' :: '0'
        :: hexDigitChar (n / 16) :: hexDigitChar (n % 16) :: T)
      = (parseStringBody T).map (fun r => (Char.ofNat n :: r.1, r.2)) := by
  have hhi := hexVal_hexDigitChar (n / 16) (by omega)
  have hlo := hexVal_hexDigitChar (n % 16) (by omega)
  apply parseStringBody_cons_ch
  unfold parseStringStep
  rw [if_neg (by decide), if_pos rfl]
  dsimp only
  rw [if_pos rfl]
  rw [hhi, hlo]
  have h0 : hexVal '0' = some 0 := rfl
  rw [h0]
  show (if Nat.isValidChar (((0 * 16 + 0) * 16 + n / 16) * 16 + n % 16) then
      StrStep.ch (Char.ofNat (((0 * 16 + 0) * 16 + n / 16) * 16 + n % 16)) T
    else StrStep.fail) = StrStep.ch (Char.ofNat n) T
  have hcode : ((0 * 16 + 0) * 16 + n / 16) * 16 + n % 16 = n := by omega
  rw [hcode, if_pos (Or.inl (by omega : n < 0xd800))]

theorem escapeChar_ctrl {c : Char} (hq : c ≠ '"') (hbs : c ≠ '\\') (hb : c ≠ '\x08')
    (hf : c ≠ '\x0c') (hn : c ≠ '\n') (hr : c ≠ '\r') (ht : c ≠ '\t')
    (hctrl : c.toNat < 0x20) :
    escapeChar c = ['\\', 'u', '0', '0', hexDigitChar (c.toNat / 16), hexDigitChar (c.toNat % 16)] := by
  unfold escapeChar
  rw [if_neg hq, if_neg hbs, if_neg hb, if_neg hf, if_neg hn, if_neg hr, if_neg ht,
    if_pos hctrl]

theorem escapeChar_plain {c : Char} (hq : c ≠ '"') (hbs : c ≠ '\\') (hb : c ≠ '\x08')
    (hf : c ≠ '\x0c') (hn : c ≠ '\n') (hr : c ≠ '\r') (ht : c ≠ '\t')
    (hctrl : ¬(c.toNat < 0x20)) :
    escapeChar c = [c] := by
  unfold escapeChar
  rw [if_neg hq, if_neg hbs, if_neg hb, if_neg hf, if_neg hn, if_neg hr, if_neg ht,
    if_neg hctrl]

theorem parseStringBody_escaped : ∀ (s rest : List Char),
    parseStringBody ((s.map escapeChar).flatten ++ '"' :: rest) = some (s, rest) := by
  intro s
  induction s with
  | nil =>
    intro rest
    simpa using parseStringBody_quote rest
  | cons c cs ih =>
    intro rest
    have hsplit : ((c :: cs).map escapeChar).flatten ++ '"' :: rest
        = escapeChar c ++ ((cs.map escapeChar).flatten ++ '"' :: rest) := by
      simp [List.append_assoc]
    rw [hsplit]
    by_cases hq : c = '"'
    · subst hq
      rw [show escapeChar '"' = ['\\', '"'] from rfl]
      rw [List.cons_append, List.cons_append, List.nil_append]
      rw [parseStringBody_twochar (by decide) (show unescapeChar '"' = some '"' from rfl),
        ih rest]
      rfl
    · by_cases hbs : c = '\\'
      · subst hbs
        rw [show escapeChar '\\' = ['\\', '\\'] from rfl]
        rw [List.cons_append, List.cons_append, List.nil_append]
        rw [parseStringBody_twochar (by decide) (show unescapeChar '\\' = some '\\' from rfl),
          ih rest]
        rfl
      · by_cases hb : c = '\x08'
        · subst hb
          rw [show escapeChar '\x08' = ['\\', 'b'] from rfl]
          rw [List.cons_append, List.cons_append, List.nil_append]
          rw [parseStringBody_twochar (by decide) (show unescapeChar 'b' = some '\x08' from rfl),
            ih rest]
          rfl
        · by_cases hf : c = '\x0c'
          · subst hf
            rw [show escapeChar '\x0c' = ['\\', 'f'] from rfl]
            rw [List.cons_append, List.cons_append, List.nil_append]
            rw [parseStringBody_twochar (by decide) (show unescapeChar 'f' = some '\x0c' from rfl),
              ih rest]
            rfl
          · by_cases hn : c = '\n'
            · subst hn
              rw [show escapeChar '\n' = ['\\', 'n'] from rfl]
              rw [List.cons_append, List.cons_append, List.nil_append]
              rw [parseStringBody_twochar (by decide) (show unescapeChar 'n' = some '\n' from rfl),
                ih rest]
              rfl
            · by_cases hr : c = '\r'
              · subst hr
                rw [show escapeChar '\r' = ['\\', 'r'] from rfl]
                rw [List.cons_append, List.cons_append, List.nil_append]
                rw [parseStringBody_twochar (by decide) (show unescapeChar 'r' = some '\r' from rfl),
                  ih rest]
                rfl
              · by_cases ht : c = '\t'
                · subst ht
                  rw [show escapeChar '\t' = ['\\', 't'] from rfl]
                  rw [List.cons_append, List.cons_append, List.nil_append]
                  rw [parseStringBody_twochar (by decide) (show unescapeChar 't' = some '\t' from rfl),
                    ih rest]
                  rfl
                · by_cases hctrl : c.toNat < 0x20
                  · rw [escapeChar_ctrl hq hbs hb hf hn hr ht hctrl]
                    rw [List.cons_append, List.cons_append, List.cons_append,
                      List.cons_append, List.cons_append, List.cons_append, List.nil_append]
                    rw [parseStringBody_unicode c.toNat hctrl, Char.ofNat_toNat, ih rest]
                    rfl
                  · rw [escapeChar_plain hq hbs hb hf hn hr ht hctrl]
                    rw [List.cons_append, List.nil_append]
                    rw [parseStringBody_raw hq hbs, ih rest]
                    rfl

/-! ### Serializer structural facts -/

theorem jsize_pos : ∀ v : Json, 1 ≤ jsize v := by
  intro v
  cases v <;> simp [jsize]

theorem isDigitChar_toNat {c : Char} (h : isDigitChar c = true) :
    48 ≤ c.toNat ∧ c.toNat ≤ 57 := by
  unfold isDigitChar at h
  rw [Bool.and_eq_true, decide_eq_true_iff, decide_eq_true_iff] at h
  exact ⟨h.1, h.2⟩

/-- First character of a serialized JSON value: never a closing bracket,
separator, BOM or NUL. -/
theorem serialize_head_facts : ∀ v : Json, ∃ c cs, jsonSerialize v = c :: cs
    ∧ c ≠ ']' ∧ c ≠ '}' ∧ c ≠ ',' ∧ c.toNat ≠ 0xFEFF := by
  intro v
  cases v with
  | null => exact ⟨'n', _, rfl, by decide, by decide, by decide, by decide⟩
  | bool b => cases b with
    | true => exact ⟨'t', _, rfl, by decide, by decide, by decide, by decide⟩
    | false => exact ⟨'f', _, rfl, by decide, by decide, by decide, by decide⟩
  | num n =>
    show ∃ c cs, intToChars n = c :: cs ∧ _
    unfold intToChars
    by_cases hneg : n < 0
    · rw [if_pos hneg]
      exact ⟨'-', _, rfl, by decide, by decide, by decide, by decide⟩
    · rw [if_neg hneg]
      obtain ⟨hne, hall, _⟩ := natToChars_spec n.natAbs
      cases hd : natToChars n.natAbs with
      | nil => exact absurd hd hne
      | cons d ds =>
        have hdig : isDigitChar d = true := hall d (by rw [hd]; exact List.mem_cons_self d ds)
        have hbounds := isDigitChar_toNat hdig
        refine ⟨d, ds, rfl, ?_, ?_, ?_, ?_⟩
        · intro he; rw [he] at hdig; exact absurd hdig (by decide)
        · intro he; rw [he] at hdig; exact absurd hdig (by decide)
        · intro he; rw [he] at hdig; exact absurd hdig (by decide)
        · omega
  | str s => exact ⟨'"', _, rfl, by decide, by decide, by decide, by decide⟩
  | arr items => exact ⟨'[', _, rfl, by decide, by decide, by decide, by decide⟩
  | obj fields => exact ⟨'{', _, rfl, by decide, by decide, by decide, by decide⟩

/-! ### JavaScript object-construction lemmas -/

theorem jsObjInsert_fresh {fields : List (String × Json)} {k : String} (v : Json)
    (h : fields.any (fun p => p.1 == k) = false) :
    jsObjInsert fields k v = fields ++ [(k, v)] := by
  unfold jsObjInsert
  rw [h]
  rfl

theorem foldl_jsObjInsert : ∀ (pairs acc : List (String × Json)),
    (∀ q ∈ pairs, acc.any (fun p => p.1 == q.1) = false) →
    keysNodup pairs = true →
    pairs.foldl (fun a kv => jsObjInsert a kv.1 kv.2) acc = acc ++ pairs := by
  intro pairs
  induction pairs with
  | nil => intro acc _ _; simp
  | cons kv rest ih =>
    intro acc hacc hnodup
    obtain ⟨k, v⟩ := kv
    unfold keysNodup at hnodup
    rw [Bool.and_eq_true] at hnodup
    obtain ⟨hrestk, hnodup'⟩ := hnodup
    rw [Bool.not_eq_true'] at hrestk
    show List.foldl _ (jsObjInsert acc k v) rest = acc ++ (k, v) :: rest
    rw [jsObjInsert_fresh v (hacc (k, v) (List.mem_cons_self _ _))]
    rw [ih (acc ++ [(k, v)]) ?_ hnodup']
    · simp
    · intro q hq
      rw [List.any_append]
      rw [Bool.or_eq_false_iff]
      constructor
      · exact hacc q (List.mem_cons_of_mem _ hq)
      · simp only [List.any_cons, List.any_nil, Bool.or_false]
        have : rest.any (fun p => p.1 == k) = false := hrestk
        rw [List.any_eq_false] at this
        have hqk := this q hq
        simp only [beq_iff_eq] at hqk
        rw [beq_eq_false_iff_ne]
        exact fun he => hqk he.symm

theorem jsObjFromPairs_eq {pairs : List (String × Json)} (h : keysNodup pairs = true) :
    jsObjFromPairs pairs = pairs := by
  unfold jsObjFromPairs
  rw [foldl_jsObjInsert pairs [] (by intro q _; rfl) h]
  rfl

/-! ### Parse-of-serialize round trip -/

theorem head_not_digit (c0 : Char) (h : isDigitChar c0 = false) (t : List Char) :
    ∀ c, (c0 :: t).head? = some c → isDigitChar c = false := by
  intro c hc
  have hce : c0 = c := by simpa using hc
  rw [← hce]
  exact h

theorem serItems_head (x : Json) (xs : List Json) :
    ∃ T, jsonSerializeItems (x :: xs) = jsonSerialize x ++ T := by
  cases xs with
  | nil => exact ⟨[], by simp [jsonSerializeItems]⟩
  | cons y ys => exact ⟨',' :: jsonSerializeItems (y :: ys), rfl⟩

theorem serFields_head (k : String) (v : Json) (fs : List (String × Json)) :
    ∃ T, jsonSerializeFields ((k, v) :: fs) = '"' :: T := by
  cases fs with
  | nil =>
    exact ⟨(k.data.map escapeChar).flatten ++ ['"'] ++ ':' :: jsonSerialize v,
      by simp [jsonSerializeFields, serializeStringChars, List.append_assoc]⟩
  | cons f fs' =>
    exact ⟨(k.data.map escapeChar).flatten ++ ['"']
        ++ ':' :: jsonSerialize v ++ ',' :: jsonSerializeFields (f :: fs'),
      by simp [jsonSerializeFields, serializeStringChars, List.append_assoc]⟩


/-- Combined induction (on an explicit size bound `N`) showing the parser
recovers serialized values, item lists and field lists. -/
theorem parse_serialize_rec : ∀ N : Nat,
    (∀ (v : Json) (rest : List Char) (fuel : Nat),
      jsize v ≤ N → jsize v ≤ fuel → jsonWF v = true →
      (∀ c, rest.head? = some c → isDigitChar c = false) →
      parseValue fuel (jsonSerialize v ++ rest) = some (v, rest))
    ∧ (∀ (items : List Json) (rest : List Char) (fuel : Nat),
      jsizeList items ≤ N → jsizeList items ≤ fuel → items ≠ [] → jsonWFList items = true →
      parseItems fuel (jsonSerializeItems items ++ ']' :: rest) = some (items, rest))
    ∧ (∀ (fields : List (String × Json)) (rest : List Char) (fuel : Nat),
      jsizeFields fields ≤ N → jsizeFields fields ≤ fuel → fields ≠ [] →
      jsonWFFields fields = true →
      parseFields fuel (jsonSerializeFields fields ++ '}' :: rest) = some (fields, rest)) := by
  intro N
  induction N with
  | zero =>
    refine ⟨fun v _ _ hN => absurd hN (by have := jsize_pos v; omega), ?_, ?_⟩
    · intro items _ _ hN _ hne _
      cases items with
      | nil => exact absurd rfl hne
      | cons x xs =>
        have := jsize_pos x
        rw [show jsizeList (x :: xs) = 1 + jsize x + jsizeList xs from rfl] at hN
        omega
    · intro fields _ _ hN _ hne _
      cases fields with
      | nil => exact absurd rfl hne
      | cons kv fs =>
        obtain ⟨k, v⟩ := kv
        have := jsize_pos v
        rw [show jsizeFields ((k, v) :: fs) = 1 + jsize v + jsizeFields fs from rfl] at hN
        omega
  | succ N ihN =>
    obtain ⟨ihV, ihI, ihF⟩ := ihN
    refine ⟨?_, ?_, ?_⟩
    · -- values
      intro v rest fuel hN hfuel hwf hrest
      have hpos := jsize_pos v
      cases fuel with
      | zero => omega
      | succ f =>
        cases v with
        | null =>
          rw [show jsonSerialize Json.null ++ rest = 'n' :: 'u' :: 'l' :: 'l' :: rest from rfl,
            parseValue.eq_def]
          simp
        | bool b =>
          cases b with
          | true =>
            rw [show jsonSerialize (Json.bool true) ++ rest
                = 't' :: 'r' :: 'u' :: 'e' :: rest from rfl,
              parseValue.eq_def]
            simp
          | false =>
            rw [show jsonSerialize (Json.bool false) ++ rest
                = 'f' :: 'a' :: 'l' :: 's' :: 'e' :: rest from rfl,
              parseValue.eq_def]
            simp
        | num n =>
          rw [show jsonSerialize (Json.num n) = intToChars n from rfl]
          unfold intToChars
          by_cases hneg : n < 0
          · rw [if_pos hneg, List.cons_append, parseValue.eq_def]
            dsimp only
            rw [if_neg (by decide), if_neg (by decide), if_neg (by decide), if_neg (by decide),
              if_neg (by decide), if_neg (by decide), if_pos rfl,
              parseNatChars_natToChars n.natAbs rest hrest]
            have hcast : -((n.natAbs : Int)) = n := by omega
            show some (Json.num (-((n.natAbs : Int))), rest) = some (Json.num n, rest)
            rw [hcast]
          · rw [if_neg hneg]
            obtain ⟨hne, hall, _⟩ := natToChars_spec n.natAbs
            cases hd : natToChars n.natAbs with
            | nil => exact absurd hd hne
            | cons d ds =>
              have hdig : isDigitChar d = true :=
                hall d (by rw [hd]; exact List.mem_cons_self d ds)
              have hnn : ∀ x : Char, isDigitChar x = false → d ≠ x := by
                intro x hx he
                rw [he] at hdig
                rw [hdig] at hx
                exact absurd hx (by simp)
              show parseValue (f + 1) (d :: (ds ++ rest)) = some (Json.num n, rest)
              rw [parseValue.eq_def]
              dsimp only
              rw [if_neg (hnn 'n' (by decide)), if_neg (hnn 't' (by decide)),
                if_neg (hnn 'f' (by decide)), if_neg (hnn '"' (by decide)),
                if_neg (hnn '[' (by decide)), if_neg (hnn '{' (by decide)),
                if_neg (hnn '-' (by decide)), if_pos hdig]
              rw [show d :: (ds ++ rest) = (d :: ds) ++ rest from rfl, ← hd,
                parseNatChars_natToChars n.natAbs rest hrest]
              have hcast : ((n.natAbs : Int)) = n := by omega
              show some (Json.num ((n.natAbs : Int)), rest) = some (Json.num n, rest)
              rw [hcast]
        | str s =>
          rw [show jsonSerialize (Json.str s) ++ rest
              = '"' :: ((s.data.map escapeChar).flatten ++ '"' :: rest) from by
                simp [jsonSerialize, serializeStringChars, List.append_assoc],
            parseValue.eq_def]
          dsimp only
          rw [if_neg (by decide), if_neg (by decide), if_neg (by decide), if_pos rfl,
            parseStringBody_escaped]
          rfl
        | arr items =>
          cases items with
          | nil =>
            rw [show jsonSerialize (Json.arr []) ++ rest = '[' :: ']' :: rest from rfl,
              parseValue.eq_def]
            simp
          | cons x xs =>
            obtain ⟨c0, cs0, hx, hxr, hxb, hxc, _⟩ := serialize_head_facts x
            obtain ⟨T, hT⟩ := serItems_head x xs
            have hinput : jsonSerialize (Json.arr (x :: xs)) ++ rest
                = '[' :: (jsonSerializeItems (x :: xs) ++ ']' :: rest) := by
              simp [jsonSerialize, List.append_assoc]
            have hcons : jsonSerializeItems (x :: xs) ++ ']' :: rest
                = c0 :: (cs0 ++ T ++ ']' :: rest) := by
              rw [hT, hx]
              simp [List.append_assoc]
            rw [hinput, hcons, parseValue.eq_def]
            dsimp only
            rw [if_neg (by decide), if_neg (by decide), if_neg (by decide),
              if_neg (by decide), if_pos rfl]
            rw [if_neg hxr, ← hcons]
            have hjs : jsize (Json.arr (x :: xs)) = 1 + jsizeList (x :: xs) := rfl
            rw [ihI (x :: xs) rest f (by rw [hjs] at hN; omega) (by rw [hjs] at hfuel; omega)
              (by simp)
              (by rw [show jsonWF (Json.arr (x :: xs)) = jsonWFList (x :: xs) from rfl] at hwf
                  exact hwf)]
            rfl
        | obj fields =>
          cases fields with
          | nil =>
            rw [show jsonSerialize (Json.obj []) ++ rest = '{' :: '}' :: rest from rfl,
              parseValue.eq_def]
            simp
          | cons kv fs =>
            obtain ⟨k, v⟩ := kv
            obtain ⟨T, hT⟩ := serFields_head k v fs
            have hwf' : keysNodup ((k, v) :: fs) = true
                ∧ jsonWFFields ((k, v) :: fs) = true := by
              rw [show jsonWF (Json.obj ((k, v) :: fs))
                  = (keysNodup ((k, v) :: fs) && jsonWFFields ((k, v) :: fs)) from rfl,
                Bool.and_eq_true] at hwf
              exact hwf
            have hinput : jsonSerialize (Json.obj ((k, v) :: fs)) ++ rest
                = '{' :: (jsonSerializeFields ((k, v) :: fs) ++ '}' :: rest) := by
              simp [jsonSerialize, List.append_assoc]
            have hcons : jsonSerializeFields ((k, v) :: fs) ++ '}' :: rest
                = '"' :: (T ++ '}' :: rest) := by
              rw [hT]
              rfl
            rw [hinput, hcons, parseValue.eq_def]
            dsimp only
            rw [if_neg (by decide), if_neg (by decide), if_neg (by decide),
              if_neg (by decide), if_neg (by decide), if_pos rfl]
            rw [if_neg (by decide), ← hcons]
            have hjs : jsize (Json.obj ((k, v) :: fs)) = 1 + jsizeFields ((k, v) :: fs) := rfl
            rw [ihF ((k, v) :: fs) rest f (by rw [hjs] at hN; omega)
              (by rw [hjs] at hfuel; omega) (by simp) hwf'.2]
            show some (Json.obj (jsObjFromPairs ((k, v) :: fs)), rest)
              = some (Json.obj ((k, v) :: fs), rest)
            rw [jsObjFromPairs_eq hwf'.1]
    · -- item lists
      intro items rest fuel hN hfuel hne hwf
      cases items with
      | nil => exact absurd rfl hne
      | cons x xs =>
        have hx1 := jsize_pos x
        have hsz : jsizeList (x :: xs) = 1 + jsize x + jsizeList xs := rfl
        cases fuel with
        | zero => omega
        | succ f =>
          have hwfx : jsonWF x = true ∧ jsonWFList xs = true := by
            rw [show jsonWFList (x :: xs) = (jsonWF x && jsonWFList xs) from rfl,
              Bool.and_eq_true] at hwf
            exact hwf
          cases xs with
          | nil =>
            have h0 : jsizeList ([] : List Json) = 0 := rfl
            rw [show jsonSerializeItems [x] ++ ']' :: rest
                = jsonSerialize x ++ (']' :: rest) from by
                simp [jsonSerializeItems]]
            rw [parseItems.eq_def]
            dsimp only
            rw [ihV x (']' :: rest) f (by rw [hsz, h0] at hN; omega)
              (by rw [hsz, h0] at hfuel; omega) hwfx.1
              (head_not_digit ']' (by decide) rest)]
            dsimp only
            rw [if_neg (by decide), if_pos rfl]
          | cons y ys =>
            rw [show jsonSerializeItems (x :: y :: ys) ++ ']' :: rest
                = jsonSerialize x ++ (',' :: (jsonSerializeItems (y :: ys) ++ ']' :: rest)) from by
                rw [show jsonSerializeItems (x :: y :: ys)
                    = jsonSerialize x ++ ',' :: jsonSerializeItems (y :: ys) from rfl]
                simp [List.append_assoc]]
            rw [parseItems.eq_def]
            dsimp only
            rw [ihV x _ f (by rw [hsz] at hN; omega) (by rw [hsz] at hfuel; omega) hwfx.1
              (head_not_digit ',' (by decide) _)]
            dsimp only
            rw [if_pos rfl]
            rw [ihI (y :: ys) rest f (by rw [hsz] at hN; omega) (by rw [hsz] at hfuel; omega)
              (by simp) hwfx.2]
            rfl
    · -- field lists
      intro fields rest fuel hN hfuel hne hwf
      cases fields with
      | nil => exact absurd rfl hne
      | cons kv fs =>
        obtain ⟨k, v⟩ := kv
        have hv1 := jsize_pos v
        have hsz : jsizeFields ((k, v) :: fs) = 1 + jsize v + jsizeFields fs := rfl
        cases fuel with
        | zero => omega
        | succ f =>
          have hwfv : jsonWF v = true ∧ jsonWFFields fs = true := by
            rw [show jsonWFFields ((k, v) :: fs) = (jsonWF v && jsonWFFields fs) from rfl,
              Bool.and_eq_true] at hwf
            exact hwf
          cases fs with
          | nil =>
            have h0 : jsizeFields ([] : List (String × Json)) = 0 := rfl
            rw [show jsonSerializeFields [(k, v)] ++ '}' :: rest
                = '"' :: ((k.data.map escapeChar).flatten
                    ++ '"' :: (':' :: (jsonSerialize v ++ '}' :: rest))) from by
                simp [jsonSerializeFields, serializeStringChars, List.append_assoc]]
            rw [parseFields.eq_def]
            dsimp only
            rw [if_pos rfl, parseStringBody_escaped]
            dsimp only
            rw [if_pos rfl]
            rw [ihV v ('}' :: rest) f (by rw [hsz, h0] at hN; omega)
              (by rw [hsz, h0] at hfuel; omega) hwfv.1
              (head_not_digit '}' (by decide) rest)]
            dsimp only
            rw [if_neg (by decide), if_pos rfl]
          | cons f2 fs2 =>
            rw [show jsonSerializeFields ((k, v) :: f2 :: fs2) ++ '}' :: rest
                = '"' :: ((k.data.map escapeChar).flatten
                    ++ '"' :: (':' :: (jsonSerialize v
                      ++ ',' :: (jsonSerializeFields (f2 :: fs2) ++ '}' :: rest)))) from by
                rw [show jsonSerializeFields ((k, v) :: f2 :: fs2)
                    = serializeStringChars k.data ++ ':' :: jsonSerialize v
                      ++ ',' :: jsonSerializeFields (f2 :: fs2) from rfl]
                simp [serializeStringChars, List.append_assoc]]
            rw [parseFields.eq_def]
            dsimp only
            rw [if_pos rfl, parseStringBody_escaped]
            dsimp only
            rw [if_pos rfl]
            rw [ihV v _ f (by rw [hsz] at hN; omega) (by rw [hsz] at hfuel; omega) hwfv.1
              (head_not_digit ',' (by decide) _)]
            dsimp only
            rw [if_pos rfl]
            rw [ihF (f2 :: fs2) rest f (by rw [hsz] at hN; omega) (by rw [hsz] at hfuel; omega)
              (by simp) hwfv.2]
            rfl

/-- The parser recovers every well-formed serialized value. -/
theorem parseValue_serialize (v : Json) (rest : List Char) (fuel : Nat)
    (hfuel : jsize v ≤ fuel) (hwf : jsonWF v = true)
    (hrest : ∀ c, rest.head? = some c → isDigitChar c = false) :
    parseValue fuel (jsonSerialize v ++ rest) = some (v, rest) :=
  (parse_serialize_rec (jsize v)).1 v rest fuel (le_refl _) hfuel hwf hrest

/-! ### Serialized text: length bound, no NUL characters, BOM-free head -/

theorem hexDigitChar_ne_null : ∀ n, (hexDigitChar n).toNat ≠ 0 := by
  intro n
  unfold hexDigitChar
  split <;> decide

theorem escapeChar_no_null (ch : Char) : ∀ c ∈ escapeChar ch, c.toNat ≠ 0 := by
  intro c hc
  unfold escapeChar at hc
  split_ifs at hc with h1 h2 h3 h4 h5 h6 h7 h8
  · simp only [List.mem_cons, List.not_mem_nil, or_false] at hc
    rcases hc with rfl | rfl <;> decide
  · simp only [List.mem_cons, List.not_mem_nil, or_false, or_self] at hc
    rw [hc]; decide
  · simp only [List.mem_cons, List.not_mem_nil, or_false] at hc
    rcases hc with rfl | rfl <;> decide
  · simp only [List.mem_cons, List.not_mem_nil, or_false] at hc
    rcases hc with rfl | rfl <;> decide
  · simp only [List.mem_cons, List.not_mem_nil, or_false] at hc
    rcases hc with rfl | rfl <;> decide
  · simp only [List.mem_cons, List.not_mem_nil, or_false] at hc
    rcases hc with rfl | rfl <;> decide
  · simp only [List.mem_cons, List.not_mem_nil, or_false] at hc
    rcases hc with rfl | rfl <;> decide
  · simp only [List.mem_cons, List.not_mem_nil, or_false] at hc
    rcases hc with rfl | rfl | rfl | rfl | rfl | rfl
    · decide
    · decide
    · decide
    · decide
    · exact hexDigitChar_ne_null _
    · exact hexDigitChar_ne_null _
  · simp only [List.mem_singleton] at hc
    subst hc
    intro h0
    rw [h0] at h8
    exact h8 (by omega)

theorem serializeStringChars_no_null (s : List Char) :
    ∀ c ∈ serializeStringChars s, c.toNat ≠ 0 := by
  intro c hc
  unfold serializeStringChars at hc
  rcases List.mem_cons.1 hc with h | h
  · rw [h]; decide
  · rcases List.mem_append.1 h with h2 | h2
    · obtain ⟨l, hl, hcl⟩ := List.mem_flatten.1 h2
      obtain ⟨ch, _, hch⟩ := List.mem_map.1 hl
      rw [← hch] at hcl
      exact escapeChar_no_null ch c hcl
    · rw [List.mem_singleton.1 h2]; decide

theorem natToChars_no_null (n : Nat) : ∀ c ∈ natToChars n, c.toNat ≠ 0 := by
  intro c hc
  obtain ⟨_, hall, _⟩ := natToChars_spec n
  have := isDigitChar_toNat (hall c hc)
  omega

theorem intToChars_no_null (n : Int) : ∀ c ∈ intToChars n, c.toNat ≠ 0 := by
  intro c hc
  unfold intToChars at hc
  by_cases hneg : n < 0
  · rw [if_pos hneg] at hc
    rcases List.mem_cons.1 hc with h | h
    · rw [h]; decide
    · exact natToChars_no_null _ c h
  · rw [if_neg hneg] at hc
    exact natToChars_no_null _ c hc

/-- No character of a serialized JSON value is U+0000 (the `\u0000` escape
covers NUL inside strings), so the UTF-8 encoding of a frame body never
contains the terminator byte. -/
theorem serialize_no_null_rec : ∀ N : Nat,
    (∀ v, jsize v ≤ N → ∀ c ∈ jsonSerialize v, c.toNat ≠ 0)
    ∧ (∀ items, jsizeList items ≤ N → ∀ c ∈ jsonSerializeItems items, c.toNat ≠ 0)
    ∧ (∀ fields, jsizeFields fields ≤ N → ∀ c ∈ jsonSerializeFields fields, c.toNat ≠ 0) := by
  intro N
  induction N with
  | zero =>
    refine ⟨fun v hN => absurd hN (by have := jsize_pos v; omega), ?_, ?_⟩
    · intro items hN c hc
      cases items with
      | nil => simp [jsonSerializeItems] at hc
      | cons x xs =>
        have := jsize_pos x
        rw [show jsizeList (x :: xs) = 1 + jsize x + jsizeList xs from rfl] at hN
        omega
    · intro fields hN c hc
      cases fields with
      | nil => simp [jsonSerializeFields] at hc
      | cons kv fs =>
        obtain ⟨k, v⟩ := kv
        have := jsize_pos v
        rw [show jsizeFields ((k, v) :: fs) = 1 + jsize v + jsizeFields fs from rfl] at hN
        omega
  | succ N ihN =>
    obtain ⟨ihV, ihI, ihF⟩ := ihN
    refine ⟨?_, ?_, ?_⟩
    · intro v hN c hc
      cases v with
      | null =>
        simp only [show jsonSerialize Json.null = ['n', 'u', 'l', 'l'] from rfl,
          List.mem_cons, List.not_mem_nil, or_false] at hc
        rcases hc with h | h | h | h
        all_goals (rw [h]; decide)
      | bool b =>
        cases b with
        | true =>
          simp only [show jsonSerialize (Json.bool true) = ['t', 'r', 'u', 'e'] from rfl,
            List.mem_cons, List.not_mem_nil, or_false] at hc
          rcases hc with h | h | h | h
          all_goals (rw [h]; decide)
        | false =>
          simp only [show jsonSerialize (Json.bool false) = ['f', 'a', 'l', 's', 'e'] from rfl,
            List.mem_cons, List.not_mem_nil, or_false] at hc
          rcases hc with h | h | h | h | h
          all_goals (rw [h]; decide)
      | num n => exact intToChars_no_null n c hc
      | str s => exact serializeStringChars_no_null s.data c hc
      | arr items =>
        have hjs : jsize (Json.arr items) = 1 + jsizeList items := rfl
        rcases List.mem_cons.1 hc with h | h
        · rw [h]; decide
        · rcases List.mem_append.1 h with h2 | h2
          · exact ihI items (by rw [hjs] at hN; omega) c h2
          · rw [List.mem_singleton.1 h2]; decide
      | obj fields =>
        have hjs : jsize (Json.obj fields) = 1 + jsizeFields fields := rfl
        rcases List.mem_cons.1 hc with h | h
        · rw [h]; decide
        · rcases List.mem_append.1 h with h2 | h2
          · exact ihF fields (by rw [hjs] at hN; omega) c h2
          · rw [List.mem_singleton.1 h2]; decide
    · intro items hN c hc
      cases items with
      | nil => simp [jsonSerializeItems] at hc
      | cons x xs =>
        have hsz : jsizeList (x :: xs) = 1 + jsize x + jsizeList xs := rfl
        cases xs with
        | nil =>
          rw [show jsonSerializeItems [x] = jsonSerialize x from by simp [jsonSerializeItems]] at hc
          exact ihV x (by rw [hsz] at hN; omega) c hc
        | cons y ys =>
          rw [show jsonSerializeItems (x :: y :: ys)
              = jsonSerialize x ++ ',' :: jsonSerializeItems (y :: ys) from rfl] at hc
          rcases List.mem_append.1 hc with h | h
          · exact ihV x (by rw [hsz] at hN; omega) c h
          · rcases List.mem_cons.1 h with h2 | h2
            · rw [h2]; decide
            · exact ihI (y :: ys) (by rw [hsz] at hN; omega) c h2
    · intro fields hN c hc
      cases fields with
      | nil => simp [jsonSerializeFields] at hc
      | cons kv fs =>
        obtain ⟨k, v⟩ := kv
        have hsz : jsizeFields ((k, v) :: fs) = 1 + jsize v + jsizeFields fs := rfl
        cases fs with
        | nil =>
          rw [show jsonSerializeFields [(k, v)]
              = serializeStringChars k.data ++ ':' :: jsonSerialize v from rfl] at hc
          rcases List.mem_append.1 hc with h | h
          · exact serializeStringChars_no_null k.data c h
          · rcases List.mem_cons.1 h with h2 | h2
            · rw [h2]; decide
            · exact ihV v (by rw [hsz] at hN; omega) c h2
        | cons f2 fs2 =>
          rw [show jsonSerializeFields ((k, v) :: f2 :: fs2)
              = serializeStringChars k.data ++ ':' :: jsonSerialize v
                ++ ',' :: jsonSerializeFields (f2 :: fs2) from rfl] at hc
          rcases List.mem_append.1 hc with h | h
          · rcases List.mem_append.1 h with h2 | h2
            · exact serializeStringChars_no_null k.data c h2
            · rcases List.mem_cons.1 h2 with h3 | h3
              · rw [h3]; decide
              · exact ihV v (by rw [hsz] at hN; omega) c h3
          · rcases List.mem_cons.1 h with h2 | h2
            · rw [h2]; decide
            · exact ihF (f2 :: fs2) (by rw [hsz] at hN; omega) c h2

theorem serialize_no_null (v : Json) : ∀ c ∈ jsonSerialize v, c.toNat ≠ 0 :=
  (serialize_no_null_rec (jsize v)).1 v (le_refl _)

/-! ### Fuel sufficiency and the frame round trip -/

/-- The parser fuel `text.length + 1` used by `jsonParse` always suffices:
a value's size never exceeds its serialization's length. -/
theorem serialize_length_rec : ∀ N : Nat,
    (∀ v, jsize v ≤ N → jsize v ≤ (jsonSerialize v).length)
    ∧ (∀ items, jsizeList items ≤ N →
        jsizeList items ≤ (jsonSerializeItems items).length + 1)
    ∧ (∀ fields, jsizeFields fields ≤ N →
        jsizeFields fields ≤ (jsonSerializeFields fields).length + 1) := by
  intro N
  induction N with
  | zero =>
    refine ⟨fun v hN => absurd hN (by have := jsize_pos v; omega), ?_, ?_⟩
    · intro items hN
      cases items with
      | nil => simp [show jsizeList ([] : List Json) = 0 from rfl]
      | cons x xs =>
        have := jsize_pos x
        rw [show jsizeList (x :: xs) = 1 + jsize x + jsizeList xs from rfl] at hN
        omega
    · intro fields hN
      cases fields with
      | nil => simp [show jsizeFields ([] : List (String × Json)) = 0 from rfl]
      | cons kv fs =>
        obtain ⟨k, v⟩ := kv
        have := jsize_pos v
        rw [show jsizeFields ((k, v) :: fs) = 1 + jsize v + jsizeFields fs from rfl] at hN
        omega
  | succ N ihN =>
    obtain ⟨ihV, ihI, ihF⟩ := ihN
    refine ⟨?_, ?_, ?_⟩
    · intro v hN
      cases v with
      | null => simp [jsize, jsonSerialize]
      | bool b => cases b <;> simp [jsize, jsonSerialize]
      | num n =>
        have hne : intToChars n ≠ [] := by
          unfold intToChars
          obtain ⟨hne', _, _⟩ := natToChars_spec n.natAbs
          by_cases hneg : n < 0
          · rw [if_pos hneg]; simp
          · rw [if_neg hneg]; exact hne'
        have : 0 < (intToChars n).length := List.length_pos.2 hne
        rw [show jsize (Json.num n) = 1 from rfl,
          show jsonSerialize (Json.num n) = intToChars n from rfl]
        omega
      | str s =>
        rw [show jsize (Json.str s) = 1 from rfl,
          show jsonSerialize (Json.str s) = serializeStringChars s.data from rfl]
        unfold serializeStringChars
        simp
      | arr items =>
        have hjs : jsize (Json.arr items) = 1 + jsizeList items := rfl
        have hlen : (jsonSerialize (Json.arr items)).length
            = (jsonSerializeItems items).length + 2 := by
          rw [show jsonSerialize (Json.arr items)
              = '[' :: jsonSerializeItems items ++ [']'] from rfl]
          simp
        have := ihI items (by rw [hjs] at hN; omega)
        rw [hjs, hlen]
        omega
      | obj fields =>
        have hjs : jsize (Json.obj fields) = 1 + jsizeFields fields := rfl
        have hlen : (jsonSerialize (Json.obj fields)).length
            = (jsonSerializeFields fields).length + 2 := by
          rw [show jsonSerialize (Json.obj fields)
              = '{' :: jsonSerializeFields fields ++ ['}'] from rfl]
          simp
        have := ihF fields (by rw [hjs] at hN; omega)
        rw [hjs, hlen]
        omega
    · intro items hN
      cases items with
      | nil => simp [show jsizeList ([] : List Json) = 0 from rfl]
      | cons x xs =>
        have hsz : jsizeList (x :: xs) = 1 + jsize x + jsizeList xs := rfl
        cases xs with
        | nil =>
          have hx := ihV x (by rw [hsz] at hN; omega)
          rw [hsz, show jsonSerializeItems [x] = jsonSerialize x from by
            simp [jsonSerializeItems]]
          rw [show jsizeList ([] : List Json) = 0 from rfl]
          omega
        | cons y ys =>
          have hx := ihV x (by rw [hsz] at hN; omega)
          have hys := ihI (y :: ys) (by rw [hsz] at hN; omega)
          rw [hsz, show jsonSerializeItems (x :: y :: ys)
              = jsonSerialize x ++ ',' :: jsonSerializeItems (y :: ys) from rfl]
          simp only [List.length_append, List.length_cons]
          omega
    · intro fields hN
      cases fields with
      | nil => simp [show jsizeFields ([] : List (String × Json)) = 0 from rfl]
      | cons kv fs =>
        obtain ⟨k, v⟩ := kv
        have hsz : jsizeFields ((k, v) :: fs) = 1 + jsize v + jsizeFields fs := rfl
        cases fs with
        | nil =>
          have hv := ihV v (by rw [hsz] at hN; omega)
          rw [hsz, show jsonSerializeFields [(k, v)]
              = serializeStringChars k.data ++ ':' :: jsonSerialize v from rfl]
          rw [show jsizeFields ([] : List (String × Json)) = 0 from rfl]
          simp only [List.length_append, List.length_cons]
          omega
        | cons f2 fs2 =>
          have hv := ihV v (by rw [hsz] at hN; omega)
          have hfs := ihF (f2 :: fs2) (by rw [hsz] at hN; omega)
          rw [hsz, show jsonSerializeFields ((k, v) :: f2 :: fs2)
              = serializeStringChars k.data ++ ':' :: jsonSerialize v
                ++ ',' :: jsonSerializeFields (f2 :: fs2) from rfl]
          simp only [List.length_append, List.length_cons]
          omega

theorem jsize_le_serialize_length (v : Json) : jsize v ≤ (jsonSerialize v).length :=
  (serialize_length_rec (jsize v)).1 v (le_refl _)

/-- `JSON.parse` recovers every well-formed serialized value. -/
theorem jsonParse_serialize (v : Json) (hwf : jsonWF v = true) :
    jsonParse (jsonSerialize v) = some v := by
  unfold jsonParse
  have h1 : parseValue ((jsonSerialize v).length + 1) (jsonSerialize v ++ []) = some (v, []) :=
    parseValue_serialize v [] ((jsonSerialize v).length + 1)
      (by have := jsize_le_serialize_length v; omega) hwf (by intro c hc; cases hc)
  rw [List.append_nil] at h1
  rw [h1]

/-- A serialized value never begins with a byte-order mark, so BOM
stripping leaves it unchanged. -/
theorem stripBOM_serialize (v : Json) : stripBOM (jsonSerialize v) = jsonSerialize v := by
  obtain ⟨c, cs, hser, _, _, _, hbom⟩ := serialize_head_facts v
  rw [hser]
  show (if c.toNat = 0xFEFF then cs else c :: cs) = c :: cs
  rw [if_neg hbom]

/-- C3: for every valid (well-formed) request object `R`, decoding the
encoding of `R` yields `R` — encode = `JSON.stringify` as UTF-8 plus one
appended `NULL_BYTE`; decode = take the bytes before the terminator, strip
a leading BOM, `JSON.parse`. -/
theorem frame_round_trip (r : Json) (hwf : jsonWF r = true) :
    decodeFrame (encodeFrame r) = some r := by
  unfold encodeFrame decodeFrame
  have hnonull : NULL_BYTE ∉ utf8Encode (jsonSerialize r) :=
    utf8Encode_no_null (serialize_no_null r)
  rw [show utf8Encode (jsonSerialize r) ++ [NULL_BYTE]
      = utf8Encode (jsonSerialize r) ++ NULL_BYTE :: [] from rfl,
    indexOfNullByte_first hnonull]
  show jsonParse (stripBOM (utf8DecodeLossy
    ((utf8Encode (jsonSerialize r) ++ [NULL_BYTE]).take
      (utf8Encode (jsonSerialize r)).length))) = some r
  rw [List.take_append_of_le_length (le_refl _), List.take_length]
  rw [utf8DecodeLossy_encode, stripBOM_serialize, jsonParse_serialize r hwf]

/-! ### Pipeline lemmas -/

theorem indexOfNullByte_spec : ∀ (c : Chunk) (i : Nat), indexOfNullByte c = some i →
    c.take i ++ NULL_BYTE :: c.drop (i + 1) = c ∧ NULL_BYTE ∉ c.take i ∧ i < c.length := by
  intro c
  induction c with
  | nil => intro i h; cases h
  | cons b rest ih =>
    intro i h
    unfold indexOfNullByte at h
    by_cases hb : b = NULL_BYTE
    · rw [if_pos hb] at h
      injection h with h
      subst h
      refine ⟨by rw [hb]; rfl, by simp, by simp⟩
    · rw [if_neg hb] at h
      cases hidx : indexOfNullByte rest with
      | none => rw [hidx] at h; cases h
      | some j =>
        rw [hidx] at h
        injection h with h
        subst h
        obtain ⟨h1, h2, h3⟩ := ih j hidx
        refine ⟨?_, ?_, by simpa using h3⟩
        · show b :: (rest.take j ++ NULL_BYTE :: rest.drop (j + 1)) = b :: rest
          rw [h1]
        · intro hmem
          rcases List.mem_cons.1 hmem with h4 | h4
          · exact hb h4.symm
          · exact h2 h4

/-- Terminator-free accumulation followed by a terminator-bearing chunk:
the frame is completed with no size check on the final chunk. -/
theorem receiveLoop_pre_frame : ∀ (pre : List Chunk) (buf : List Nat) (c : Chunk)
    (post : List Chunk) (i : Nat),
    (∀ x ∈ pre, NULL_BYTE ∉ x) → buf.length + pre.flatten.length ≤ MAX_BUFFER_SIZE →
    indexOfNullByte c = some i →
    receiveLoop (some buf) (pre ++ c :: post)
      = RecvOutcome.frame (buf ++ pre.flatten ++ c.take i) := by
  intro pre
  induction pre with
  | nil =>
    intro buf c post i _ _ hc
    rw [List.nil_append, receiveLoop_cons_frame (dataEventStep_frame hc (some buf))]
    simp
  | cons p ps ih =>
    intro buf c post i hpre hsize hc
    simp only [List.flatten_cons, List.length_append] at hsize
    rw [List.cons_append, receiveLoop_cons_cont
      (dataEventStep_accumulate (hpre p (List.mem_cons_self p ps)) (by omega))]
    rw [ih (buf ++ p) c post i (fun x hx => hpre x (List.mem_cons_of_mem _ hx))
      (by rw [List.length_append]; omega) hc]
    simp [List.append_assoc]

theorem receiveClientRequest_frame {chunks : List Chunk} {m : List Nat}
    (je : String → String) (h : receiveLoop none chunks = RecvOutcome.frame m) :
    receiveClientRequest je chunks
      = (match jsonParse (stripBOM (utf8DecodeLossy m)) with
        | some requestObject => Except.ok requestObject
        | none => Except.error ("Invalid JSON in message: "
            ++ je (String.mk (stripBOM (utf8DecodeLossy m))))) := by
  unfold receiveClientRequest
  rw [h]

theorem receiveClientRequest_overflow {chunks : List Chunk}
    (je : String → String) (h : receiveLoop none chunks = RecvOutcome.overflow) :
    receiveClientRequest je chunks
      = Except.error ("Message size exceeds limit of " ++ toString MAX_BUFFER_SIZE ++ " bytes") := by
  unfold receiveClientRequest
  rw [h]

/-- The connection's event trace depends on the chunk sequence only
through the receive loop's outcome. -/
theorem runConnection_congr {chunks1 chunks2 : List Chunk}
    (si : Option Json → Option Json → Response) (je : String → String) (te : String)
    (h : receiveLoop none chunks1 = receiveLoop none chunks2) :
    runConnection si je te chunks1 = runConnection si je te chunks2 := by
  unfold runConnection receiveClientRequest
  rw [h]

theorem runConnection_err {chunks : List Chunk} {e : String}
    (si : Option Json → Option Json → Response) (je : String → String) (te : String)
    (h : receiveClientRequest je chunks = Except.error e) :
    runConnection si je te chunks
      = [ConnEvent.respond { success := false, error := some ("Error - " ++ e) },
         ConnEvent.close] := by
  unfold runConnection
  rw [h]

theorem runConnection_ok {chunks : List Chunk} {requestObject : Json}
    (si : Option Json → Option Json → Response) (je : String → String) (te : String)
    (h : receiveClientRequest je chunks = Except.ok requestObject) :
    runConnection si je te chunks = processRequest si te requestObject := by
  unfold runConnection
  rw [h]

theorem processRequest_invalid {requestObject : Json} {e : String}
    (si : Option Json → Option Json → Response) {te : String}
    (h : validateClientRequest te requestObject = ValidationResult.invalid e) :
    processRequest si te requestObject
      = [ConnEvent.respond { success := false, error := some ("Error - " ++ e) },
         ConnEvent.close] := by
  unfold processRequest
  rw [h]

theorem processRequest_valid {requestObject r : Json}
    (si : Option Json → Option Json → Response) {te : String}
    (h : validateClientRequest te requestObject = ValidationResult.valid r) :
    processRequest si te requestObject
      = [ConnEvent.respond (si (jsGet r "pythonPath") (jsGet r "shortName")),
         ConnEvent.close] := by
  unfold processRequest
  rw [h]

/-- Every connection trace is exactly one response write followed by the
close — whatever the input chunks. -/
theorem runConnection_shape (si : Option Json → Option Json → Response)
    (je : String → String) (te : String) (chunks : List Chunk) :
    ∃ resp, runConnection si je te chunks = [ConnEvent.respond resp, ConnEvent.close] := by
  cases hr : receiveClientRequest je chunks with
  | error e => exact ⟨_, runConnection_err si je te hr⟩
  | ok requestObject =>
    rw [runConnection_ok si je te hr]
    cases hv : validateClientRequest te requestObject with
    | invalid e => exact ⟨_, processRequest_invalid si hv⟩
    | valid r => exact ⟨_, processRequest_valid si hv⟩

theorem responsesOf_shape (resp : Response) :
    responsesOf [ConnEvent.respond resp, ConnEvent.close] = [resp] := rfl

theorem jsOrEmptyStr_strictEq (v : Option Json) :
    jsStrictEqStr (jsOrEmptyStr v) "set-interpreter" = true
      ↔ v = some (Json.str "set-interpreter") := by
  cases v with
  | none => simp [jsOrEmptyStr, jsStrictEqStr]
  | some a =>
    cases a with
    | null => simp [jsOrEmptyStr, jsTruthy, jsStrictEqStr]
    | bool b => cases b <;> simp [jsOrEmptyStr, jsTruthy, jsStrictEqStr]
    | num n =>
      simp only [jsOrEmptyStr]
      split_ifs <;> simp [jsStrictEqStr]
    | str s =>
      simp only [jsOrEmptyStr]
      by_cases hs : s = ""
      · subst hs
        simp [jsTruthy, jsStrictEqStr]
      · rw [if_pos (by simp [jsTruthy, hs])]
        simp [jsStrictEqStr]
    | arr items =>
      simp only [jsOrEmptyStr]
      rw [if_pos (by simp [jsTruthy])]
      simp [jsStrictEqStr]
    | obj fields =>
      simp only [jsOrEmptyStr]
      rw [if_pos (by simp [jsTruthy])]
      simp [jsStrictEqStr]

theorem jsTruthyOpt_iff (v : Option Json) :
    jsTruthyOpt v = true ↔ ∃ p, v = some p ∧ jsTruthy p = true := by
  cases v with
  | none => simp [jsTruthyOpt]
  | some p => simp [jsTruthyOpt]

/-- Validation of the JSON `null` request: property access throws, the
`catch` reports the `TypeError` message. -/
theorem validateClientRequest_null (te : String) :
    validateClientRequest te Json.null
      = ValidationResult.invalid ("Failed to process request: " ++ te) := rfl

/-- On every parsed request other than `null`, validation runs the
dispatch condition. -/
theorem validateClientRequest_ne_null (te : String) (r : Json) (hne : r ≠ Json.null) :
    validateClientRequest te r
      = if jsStrictEqStr (jsOrEmptyStr (jsGet r "action")) "set-interpreter"
            && jsTruthyOpt (jsGet r "pythonPath") then
          ValidationResult.valid r
        else
          ValidationResult.invalid
            ("Unsupported request: " ++ String.mk (jsonSerialize r)) := by
  cases r with
  | null => exact absurd rfl hne
  | bool b => rfl
  | num n => rfl
  | str s => rfl
  | arr items => rfl
  | obj fields => rfl

/-- The code's dispatch condition, characterized: for a non-`null` parsed
request, the `action` property is exactly the string "set-interpreter" and
the `pythonPath` property is present and truthy. -/
theorem validateClientRequest_spec (te : String) (requestObject : Json)
    (hne : requestObject ≠ Json.null) :
    ((jsGet requestObject "action" = some (Json.str "set-interpreter")
        ∧ ∃ p, jsGet requestObject "pythonPath" = some p ∧ jsTruthy p = true) →
      validateClientRequest te requestObject = ValidationResult.valid requestObject)
    ∧ (¬(jsGet requestObject "action" = some (Json.str "set-interpreter")
        ∧ ∃ p, jsGet requestObject "pythonPath" = some p ∧ jsTruthy p = true) →
      validateClientRequest te requestObject
        = ValidationResult.invalid
            ("Unsupported request: " ++ String.mk (jsonSerialize requestObject))) := by
  constructor
  · intro ⟨h1, h2⟩
    rw [validateClientRequest_ne_null te requestObject hne]
    rw [if_pos]
    rw [Bool.and_eq_true]
    exact ⟨(jsOrEmptyStr_strictEq _).2 h1, (jsTruthyOpt_iff _).2 h2⟩
  · intro h
    rw [validateClientRequest_ne_null te requestObject hne]
    rw [if_neg]
    intro hcond
    rw [Bool.and_eq_true] at hcond
    exact h ⟨(jsOrEmptyStr_strictEq _).1 hcond.1, (jsTruthyOpt_iff _).1 hcond.2⟩

/-! ## Claim theorems -/

/-- C1: when an inbound chunk contains the terminator byte, only the bytes
strictly before the first terminator (together with the already-accumulated
terminator-free prefix chunks) are assembled into the message that is
parsed; the data listener is removed at that point, so whatever follows the
first terminator — in the same chunk or in later chunks, including further
complete frames — never changes the connection's behaviour; and exactly one
response is produced for the connection. -/
theorem single_shot_first_frame (pre : List Chunk) (c : Chunk) (post : List Chunk) (i : Nat)
    (hpre : ∀ x ∈ pre, NULL_BYTE ∉ x)
    (hsize : pre.flatten.length ≤ MAX_BUFFER_SIZE)
    (hc : indexOfNullByte c = some i)
    (si : Option Json → Option Json → Response) (je : String → String) (te : String) :
    receiveLoop none (pre ++ c :: post) = RecvOutcome.frame (pre.flatten ++ c.take i)
    ∧ runConnection si je te (pre ++ c :: post)
        = runConnection si je te (pre ++ [c.take i ++ [NULL_BYTE]])
    ∧ (responsesOf (runConnection si je te (pre ++ c :: post))).length = 1 := by
  obtain ⟨hdecomp, hfree, hlt⟩ := indexOfNullByte_spec c i hc
  have hcons : ∃ d ds, pre ++ c :: post = d :: ds := by
    cases pre with
    | nil => exact ⟨c, post, rfl⟩
    | cons p ps => exact ⟨p, ps ++ c :: post, rfl⟩
  obtain ⟨d, ds, hds⟩ := hcons
  have h1 : receiveLoop none (pre ++ c :: post)
      = RecvOutcome.frame (pre.flatten ++ c.take i) := by
    rw [hds, receiveLoop_none_eq_empty, ← hds,
      receiveLoop_pre_frame pre [] c post i hpre (by simpa using hsize) hc]
    simp
  have hc2 : indexOfNullByte (c.take i ++ [NULL_BYTE]) = some i := by
    have := @indexOfNullByte_first _ ([] : List Nat) hfree
    rw [show (c.take i).length = i from by rw [List.length_take]; omega] at this
    exact this
  have htake2 : (c.take i ++ [NULL_BYTE]).take i = c.take i := by
    rw [List.take_append_of_le_length (by rw [List.length_take]; omega)]
    rw [List.take_take]
    simp
  have hcons2 : ∃ d2 ds2, pre ++ [c.take i ++ [NULL_BYTE]] = d2 :: ds2 := by
    cases pre with
    | nil => exact ⟨_, [], rfl⟩
    | cons p ps => exact ⟨p, ps ++ [c.take i ++ [NULL_BYTE]], rfl⟩
  obtain ⟨d2, ds2, hds2⟩ := hcons2
  have h2 : receiveLoop none (pre ++ [c.take i ++ [NULL_BYTE]])
      = RecvOutcome.frame (pre.flatten ++ c.take i) := by
    rw [hds2, receiveLoop_none_eq_empty, ← hds2,
      receiveLoop_pre_frame pre [] (c.take i ++ [NULL_BYTE]) [] i hpre
        (by simpa using hsize) hc2, htake2]
    simp
  refine ⟨h1, runConnection_congr si je te (by rw [h1, h2]), ?_⟩
  obtain ⟨resp, hresp⟩ := runConnection_shape si je te (pre ++ c :: post)
  rw [hresp, responsesOf_shape]
  rfl

/-- C1 witness: the theorem applied to a concrete connection where the
terminator-bearing chunk carries extra bytes and a further complete frame
follows. -/
theorem single_shot_first_frame_witness :
    ((∀ x ∈ [[49]], NULL_BYTE ∉ x)
      ∧ ([[49]] : List Chunk).flatten.length ≤ MAX_BUFFER_SIZE
      ∧ indexOfNullByte [50, NULL_BYTE, 51] = some 1)
    ∧ (receiveLoop none ([[49]] ++ [50, NULL_BYTE, 51] :: [[52, NULL_BYTE]])
        = RecvOutcome.frame (([[49]] : List Chunk).flatten ++ [50, NULL_BYTE, 51].take 1)
      ∧ runConnection (fun _ _ => { success := true, error := none }) (fun _ => "e") "t"
          ([[49]] ++ [50, NULL_BYTE, 51] :: [[52, NULL_BYTE]])
        = runConnection (fun _ _ => { success := true, error := none }) (fun _ => "e") "t"
          ([[49]] ++ [[50, NULL_BYTE, 51].take 1 ++ [NULL_BYTE]])
      ∧ (responsesOf (runConnection (fun _ _ => { success := true, error := none })
          (fun _ => "e") "t" ([[49]] ++ [50, NULL_BYTE, 51] :: [[52, NULL_BYTE]]))).length
        = 1) :=
  ⟨⟨by decide, by decide, by decide⟩,
    single_shot_first_frame [[49]] [50, NULL_BYTE, 51] [[52, NULL_BYTE]] 1
      (by decide) (by decide) (by decide)
      (fun _ _ => { success := true, error := none }) (fun _ => "e") "t"⟩

/-- C2: a newly accepted connection is rejected with a `success:false`
response and never added to the tracked set when the set already holds the
concurrency ceiling; otherwise it is timestamped and added; and admission
never pushes the set's size above the ceiling. -/
theorem admission_ceiling (active : Finset Nat) (conn now : Nat)
    (hfresh : conn ∉ active)
    (hinv : active.card ≤ MAX_CONCURRENT_CLIENT_CONNECTIONS) :
    (MAX_CONCURRENT_CLIENT_CONNECTIONS ≤ active.card →
      handleNewConnection active conn now
        = (active, AdmitOutcome.rejected
            { success := false, error := some "Server connection limit reached" }))
    ∧ (active.card < MAX_CONCURRENT_CLIENT_CONNECTIONS →
      handleNewConnection active conn now = (insert conn active, AdmitOutcome.admitted now)
      ∧ (insert conn active).card ≤ MAX_CONCURRENT_CLIENT_CONNECTIONS)
    ∧ (handleNewConnection active conn now).1.card ≤ MAX_CONCURRENT_CLIENT_CONNECTIONS := by
  refine ⟨?_, ?_, ?_⟩
  · intro hfull
    unfold handleNewConnection
    rw [if_pos hfull]
  · intro hroom
    have hcard : (insert conn active).card = active.card + 1 :=
      Finset.card_insert_of_not_mem hfresh
    refine ⟨?_, by omega⟩
    unfold handleNewConnection
    rw [if_neg (by omega)]
  · unfold handleNewConnection
    by_cases hfull : MAX_CONCURRENT_CLIENT_CONNECTIONS ≤ active.card
    · rw [if_pos hfull]
      exact hinv
    · rw [if_neg hfull]
      have hcard : (insert conn active).card = active.card + 1 :=
        Finset.card_insert_of_not_mem hfresh
      show (insert conn active).card ≤ MAX_CONCURRENT_CLIENT_CONNECTIONS
      omega

/-- C2 witness: a full set of five tracked connections rejects the sixth,
and a set of four admits a fifth. -/
theorem admission_ceiling_witness :
    ((9 : Nat) ∉ ({0, 1, 2, 3, 4} : Finset Nat)
      ∧ ({0, 1, 2, 3, 4} : Finset Nat).card ≤ MAX_CONCURRENT_CLIENT_CONNECTIONS)
    ∧ (MAX_CONCURRENT_CLIENT_CONNECTIONS ≤ ({0, 1, 2, 3, 4} : Finset Nat).card →
      handleNewConnection {0, 1, 2, 3, 4} 9 77
        = ({0, 1, 2, 3, 4},
           AdmitOutcome.rejected
             { success := false, error := some "Server connection limit reached" })) :=
  ⟨⟨by decide, by decide⟩,
    (admission_ceiling {0, 1, 2, 3, 4} 9 77 (by decide) (by decide)).1⟩

/-- C4: splitting a valid frame into arbitrary non-empty sub-chunks and
feeding them to the receive loop in order produces the same completed
frame — and the same connection trace — as delivering the frame whole,
provided the message fits the buffer cap. -/
theorem fragmentation_tolerance (m rest : List Nat) (chunks : List Chunk)
    (hne : ∀ x ∈ chunks, x ≠ [])
    (hjoin : chunks.flatten = m ++ NULL_BYTE :: rest)
    (hm : NULL_BYTE ∉ m) (hsize : m.length ≤ MAX_BUFFER_SIZE)
    (si : Option Json → Option Json → Response) (je : String → String) (te : String) :
    receiveLoop none chunks = RecvOutcome.frame m
    ∧ receiveLoop none [m ++ NULL_BYTE :: rest] = RecvOutcome.frame m
    ∧ runConnection si je te chunks = runConnection si je te [m ++ NULL_BYTE :: rest] := by
  have hchunksne : chunks ≠ [] := by
    intro h
    rw [h] at hjoin
    exact List.append_ne_nil_of_right_ne_nil _ (List.cons_ne_nil _ _) hjoin.symm
  have h1 : receiveLoop none chunks = RecvOutcome.frame m := by
    cases chunks with
    | nil => exact absurd rfl hchunksne
    | cons c cs =>
      rw [receiveLoop_none_eq_empty,
        receiveLoop_frame (c :: cs) [] m rest hjoin hm (by simpa using hsize)]
      rfl
  have h2 : receiveLoop none [m ++ NULL_BYTE :: rest] = RecvOutcome.frame m := by
    rw [receiveLoop_none_eq_empty]
    rw [receiveLoop_cons_frame (dataEventStep_frame (indexOfNullByte_first hm) (some []))]
    rw [List.take_append_of_le_length (le_refl _), List.take_length]
    rfl
  exact ⟨h1, h2, runConnection_congr si je te (by rw [h1, h2])⟩

/-- C4 witness: a frame delivered in one-byte chunks parses as when whole. -/
theorem fragmentation_tolerance_witness :
    ((∀ x ∈ [[49], [50], [NULL_BYTE], [51]], x ≠ ([] : List Nat))
      ∧ ([[49], [50], [NULL_BYTE], [51]] : List Chunk).flatten = [49, 50] ++ NULL_BYTE :: [51]
      ∧ NULL_BYTE ∉ [49, 50] ∧ ([49, 50] : List Nat).length ≤ MAX_BUFFER_SIZE)
    ∧ (receiveLoop none [[49], [50], [NULL_BYTE], [51]] = RecvOutcome.frame [49, 50]
      ∧ receiveLoop none [[49, 50] ++ NULL_BYTE :: [51]] = RecvOutcome.frame [49, 50]
      ∧ runConnection (fun _ _ => { success := true, error := none }) (fun _ => "e") "t"
          [[49], [50], [NULL_BYTE], [51]]
        = runConnection (fun _ _ => { success := true, error := none }) (fun _ => "e") "t"
          [[49, 50] ++ NULL_BYTE :: [51]]) :=
  ⟨⟨by decide, by decide, by decide, by decide⟩,
    fragmentation_tolerance [49, 50] [51] [[49], [50], [NULL_BYTE], [51]]
      (by decide) (by decide) (by decide) (by decide)
      (fun _ _ => { success := true, error := none }) (fun _ => "e") "t"⟩

/-- C5: terminator-free chunks accumulate without error while the
accumulated length stays at or below `MAX_BUFFER_SIZE` (in particular,
exactly 1024 accumulated bytes do not yet fail); the first terminator-free
chunk pushing the total past the cap rejects with the size-limit error,
whatever arrives afterwards, and the connection trace is the error
response followed by the close. -/
theorem overflow_boundary :
    (∀ chunks : List Chunk, (∀ x ∈ chunks, NULL_BYTE ∉ x) →
      chunks.flatten.length ≤ MAX_BUFFER_SIZE →
      receiveLoop none chunks
        = RecvOutcome.incomplete (if chunks.isEmpty then none else some chunks.flatten))
    ∧ (∀ (good : List Chunk) (c : Chunk) (more : List Chunk)
        (si : Option Json → Option Json → Response) (je : String → String) (te : String),
      (∀ x ∈ good, NULL_BYTE ∉ x) → NULL_BYTE ∉ c →
      good.flatten.length ≤ MAX_BUFFER_SIZE →
      MAX_BUFFER_SIZE < good.flatten.length + c.length →
      receiveLoop none (good ++ c :: more) = RecvOutcome.overflow
      ∧ receiveClientRequest je (good ++ c :: more)
        = Except.error ("Message size exceeds limit of " ++ toString MAX_BUFFER_SIZE ++ " bytes")
      ∧ runConnection si je te (good ++ c :: more)
        = [ConnEvent.respond
            ⟨false, some ("Error - Message size exceeds limit of "
              ++ toString MAX_BUFFER_SIZE ++ " bytes")⟩, ConnEvent.close]) := by
  constructor
  · intro chunks hterm hsize
    cases chunks with
    | nil => rfl
    | cons c cs =>
      rw [receiveLoop_none_eq_empty,
        receiveLoop_incomplete (c :: cs) [] hterm (by simpa using hsize)]
      simp
  · intro good c more si je te hgood hc hfit hover
    have h1 : receiveLoop none (good ++ c :: more) = RecvOutcome.overflow := by
      have hcons : ∃ d ds, good ++ c :: more = d :: ds := by
        cases good with
        | nil => exact ⟨c, more, rfl⟩
        | cons p ps => exact ⟨p, ps ++ c :: more, rfl⟩
      obtain ⟨d, ds, hds⟩ := hcons
      rw [hds, receiveLoop_none_eq_empty, ← hds]
      exact receiveLoop_overflow good [] c more hgood hc (by simpa using hfit)
        (by simpa using hover)
    have h2 := receiveClientRequest_overflow je h1
    exact ⟨h1, h2, runConnection_err si je te h2⟩

/-- C5 witness: exactly 1024 accumulated bytes without a terminator do not
fail, and one more byte rejects with the size-limit error. -/
theorem overflow_boundary_witness :
    ((∀ x ∈ [List.replicate 1024 65], NULL_BYTE ∉ x)
      ∧ ([List.replicate 1024 65] : List Chunk).flatten.length ≤ MAX_BUFFER_SIZE)
    ∧ receiveLoop none [List.replicate 1024 65]
        = RecvOutcome.incomplete
            (if ([List.replicate 1024 65] : List Chunk).isEmpty then none
             else some ([List.replicate 1024 65] : List Chunk).flatten)
    ∧ ((∀ x ∈ [List.replicate 1024 65], NULL_BYTE ∉ x) ∧ NULL_BYTE ∉ [66]
      ∧ ([List.replicate 1024 65] : List Chunk).flatten.length ≤ MAX_BUFFER_SIZE
      ∧ MAX_BUFFER_SIZE < ([List.replicate 1024 65] : List Chunk).flatten.length
          + ([66] : List Nat).length)
    ∧ receiveLoop none ([List.replicate 1024 65] ++ [66] :: []) = RecvOutcome.overflow :=
  have hterm : ∀ x ∈ [List.replicate 1024 65], NULL_BYTE ∉ x := by
    intro x hx
    rw [List.mem_singleton.1 hx]
    intro hmem
    have := (List.eq_of_mem_replicate hmem)
    exact absurd this (by decide)
  have hflat : ([List.replicate 1024 65] : List Chunk).flatten = List.replicate 1024 65 := by
    rw [List.flatten_cons, List.flatten_nil, List.append_nil]
  have hlen : ([List.replicate 1024 65] : List Chunk).flatten.length ≤ MAX_BUFFER_SIZE := by
    rw [hflat, List.length_replicate]
    unfold MAX_BUFFER_SIZE
    omega
  have hover : MAX_BUFFER_SIZE < ([List.replicate 1024 65] : List Chunk).flatten.length
      + ([66] : List Nat).length := by
    rw [hflat, List.length_replicate]
    show (1024 : Nat) < 1024 + 1
    omega
  ⟨⟨hterm, hlen⟩,
    overflow_boundary.1 [List.replicate 1024 65] hterm hlen,
    ⟨hterm, by decide, hlen, hover⟩,
    (overflow_boundary.2 [List.replicate 1024 65] [66] []
      (fun _ _ => { success := true, error := none }) (fun _ => "e") "t"
      hterm (by decide) hlen hover).1⟩

/-- C6 counterexample: a parsed request whose `pythonPath` is the number 1
— not a non-empty string — passes `validateClientRequest` and is dispatched
to the injected handler (the marker response in the trace shows the handler
ran), refuting the claim that dispatch happens only when `pythonPath` is a
non-empty string. -/
theorem validate_nonstring_pythonpath_dispatches :
    validateClientRequest "TE"
        (Json.obj [("action", Json.str "set-interpreter"), ("pythonPath", Json.num 1)])
      = ValidationResult.valid
          (Json.obj [("action", Json.str "set-interpreter"), ("pythonPath", Json.num 1)])
    ∧ isNonEmptyStringField
        (jsGet (Json.obj [("action", Json.str "set-interpreter"), ("pythonPath", Json.num 1)])
          "pythonPath") = false
    ∧ processRequest (fun _ _ => { success := true, error := some "handler-invoked" }) "TE"
        (Json.obj [("action", Json.str "set-interpreter"), ("pythonPath", Json.num 1)])
      = [ConnEvent.respond { success := true, error := some "handler-invoked" },
         ConnEvent.close] :=
  ⟨rfl, rfl, rfl⟩

/-- C6 (amended): the pipeline dispatches to the injected handler exactly
when the `action` property is the string "set-interpreter" and the
`pythonPath` property is present and truthy — any non-empty string, but
also non-string truthy values such as nonzero numbers.  Otherwise the
handler is never invoked (the trace is the same for every handler) and the
client receives a failure response: for the parsed request JSON `null`,
property access throws and the error text embeds the platform's
`TypeError` message ("Failed to process request: ..."); for every other
rejected request the error text embeds the serialized request
("Unsupported request: ..."). -/
theorem validate_dispatch_amended (te : String) (r : Json)
    (si : Option Json → Option Json → Response) :
    ((jsGet r "action" = some (Json.str "set-interpreter")
        ∧ ∃ p, jsGet r "pythonPath" = some p ∧ jsTruthy p = true) →
      processRequest si te r
        = [ConnEvent.respond (si (jsGet r "pythonPath") (jsGet r "shortName")),
           ConnEvent.close])
    ∧ (r = Json.null →
      processRequest si te r
        = [ConnEvent.respond
            ⟨false, some ("Error - Failed to process request: " ++ te)⟩,
           ConnEvent.close]
        ∧ ∀ si2, processRequest si te r = processRequest si2 te r)
    ∧ (r ≠ Json.null →
      ¬(jsGet r "action" = some (Json.str "set-interpreter")
        ∧ ∃ p, jsGet r "pythonPath" = some p ∧ jsTruthy p = true) →
      processRequest si te r
        = [ConnEvent.respond
            ⟨false, some ("Error - Unsupported request: " ++ String.mk (jsonSerialize r))⟩,
           ConnEvent.close]
        ∧ ∀ si2, processRequest si te r = processRequest si2 te r) := by
  refine ⟨?_, ?_, ?_⟩
  · intro hcond
    have hne : r ≠ Json.null := by
      intro h
      rw [h] at hcond
      exact Option.noConfusion hcond.1
    exact processRequest_valid si ((validateClientRequest_spec te r hne).1 hcond)
  · intro h
    subst h
    have hinv := validateClientRequest_null te
    refine ⟨processRequest_invalid si hinv, ?_⟩
    intro si2
    rw [processRequest_invalid si hinv, processRequest_invalid si2 hinv]
  · intro hne hcond
    have hinv := (validateClientRequest_spec te r hne).2 hcond
    refine ⟨processRequest_invalid si hinv, ?_⟩
    intro si2
    rw [processRequest_invalid si hinv, processRequest_invalid si2 hinv]

/-- C6 witness for the amended claim: a request with a missing
`pythonPath` is rejected with the serialized-request error, and the parsed
request `null` is rejected with the `TypeError`-embedding error — neither
invokes the handler. -/
theorem validate_dispatch_amended_witness :
    ((Json.obj [("action", Json.str "noop")] ≠ Json.null)
      ∧ ¬(jsGet (Json.obj [("action", Json.str "noop")]) "action"
            = some (Json.str "set-interpreter")
          ∧ ∃ p, jsGet (Json.obj [("action", Json.str "noop")]) "pythonPath" = some p
            ∧ jsTruthy p = true))
    ∧ (processRequest (fun _ _ => { success := true, error := none }) "TE2"
          (Json.obj [("action", Json.str "noop")])
        = [ConnEvent.respond
            ⟨false, some ("Error - Unsupported request: "
              ++ String.mk (jsonSerialize (Json.obj [("action", Json.str "noop")])))⟩,
           ConnEvent.close]
        ∧ ∀ si2, processRequest (fun _ _ => { success := true, error := none }) "TE2"
            (Json.obj [("action", Json.str "noop")])
          = processRequest si2 "TE2" (Json.obj [("action", Json.str "noop")]))
    ∧ (processRequest (fun _ _ => { success := true, error := none }) "TE2" Json.null
        = [ConnEvent.respond
            ⟨false, some ("Error - Failed to process request: " ++ "TE2")⟩,
           ConnEvent.close]
        ∧ ∀ si2, processRequest (fun _ _ => { success := true, error := none }) "TE2" Json.null
          = processRequest si2 "TE2" Json.null) :=
  have hne : Json.obj [("action", Json.str "noop")] ≠ Json.null := fun h =>
    Json.noConfusion h
  have hnot : ¬(jsGet (Json.obj [("action", Json.str "noop")]) "action"
        = some (Json.str "set-interpreter")
      ∧ ∃ p, jsGet (Json.obj [("action", Json.str "noop")]) "pythonPath" = some p
        ∧ jsTruthy p = true) := by
    intro ⟨h1, _⟩
    rw [show jsGet (Json.obj [("action", Json.str "noop")]) "action"
        = some (Json.str "noop") from rfl] at h1
    injection h1 with h2
    injection h2 with h3
    exact absurd h3 (by decide)
  ⟨⟨hne, hnot⟩,
    (validate_dispatch_amended "TE2" (Json.obj [("action", Json.str "noop")])
      (fun _ _ => { success := true, error := none })).2.2 hne hnot,
    (validate_dispatch_amended "TE2" Json.null
      (fun _ _ => { success := true, error := none })).2.1 rfl⟩

/-- C7: when the very first received byte is the terminator, the empty
frame fails JSON parsing and the client receives a parse-error failure
response (embedding the platform's `JSON.parse` error message for the
empty text) before the connection is closed — not a protocol or framing
error. -/
theorem empty_frame_parse_error (tail : List Nat) (post : List Chunk)
    (si : Option Json → Option Json → Response) (je : String → String) (te : String) :
    runConnection si je te ((NULL_BYTE :: tail) :: post)
      = [ConnEvent.respond
          { success := false, error := some ("Error - Invalid JSON in message: " ++ je "") },
         ConnEvent.close] := by
  have hloop : receiveLoop none ((NULL_BYTE :: tail) :: post) = RecvOutcome.frame [] := by
    have hidx : indexOfNullByte (NULL_BYTE :: tail) = some 0 := by
      unfold indexOfNullByte
      rw [if_pos rfl]
    rw [receiveLoop_cons_frame (dataEventStep_frame hidx none)]
    rfl
  have hrecv : receiveClientRequest je ((NULL_BYTE :: tail) :: post)
      = Except.error ("Invalid JSON in message: " ++ je "") := by
    rw [receiveClientRequest_frame je hloop]
    rfl
  exact runConnection_err si je te hrecv

/-- C8: `gracefullyShutdownServer` attempts a graceful `end()` on every
member of the active-connection set, falls back to `destroy()` for exactly
the connections whose `end()` throws, then closes the listening server,
and resolves only inside the close confirmation callback, after the socket
file at the recorded path has been deleted — `resolve` is the final event,
preceded immediately by the deletion, which follows the server close,
which follows all per-connection closes. -/
theorem graceful_shutdown_trace (conns : List Nat) (endThrows : Nat → Bool) (p : String)
    (fileExists : String → Bool) (hex : fileExists p = true) :
    gracefullyShutdownServer conns endThrows (some p) fileExists
      = (conns.map (closeActiveConnection endThrows)).flatten
        ++ [ShutdownEvent.closeServer, ShutdownEvent.deleteSocketFile p, ShutdownEvent.resolve]
    ∧ (∀ c ∈ conns, ShutdownEvent.endConn c
        ∈ gracefullyShutdownServer conns endThrows (some p) fileExists)
    ∧ (∀ c, ShutdownEvent.destroyConn c
          ∈ gracefullyShutdownServer conns endThrows (some p) fileExists
        ↔ c ∈ conns ∧ endThrows c = true)
    ∧ (gracefullyShutdownServer conns endThrows (some p) fileExists).getLast?
        = some ShutdownEvent.resolve := by
  have htrace : gracefullyShutdownServer conns endThrows (some p) fileExists
      = (conns.map (closeActiveConnection endThrows)).flatten
        ++ [ShutdownEvent.closeServer, ShutdownEvent.deleteSocketFile p,
            ShutdownEvent.resolve] := by
    unfold gracefullyShutdownServer
    rw [show (match (some p : Option String) with
        | some q => deleteStaleSocketFile fileExists q
        | none => [ShutdownEvent.missingPathError]) = deleteStaleSocketFile fileExists p
      from rfl]
    unfold deleteStaleSocketFile
    rw [if_pos hex]
    simp
  have hmemclose : ∀ (e : ShutdownEvent) (c : Nat),
      e ∈ closeActiveConnection endThrows c
        ↔ (e = ShutdownEvent.endConn c
          ∨ (e = ShutdownEvent.destroyConn c ∧ endThrows c = true)) := by
    intro e c
    unfold closeActiveConnection
    by_cases h : endThrows c = true
    · rw [if_pos h]
      simp [h]
    · rw [if_neg h]
      simp only [List.mem_singleton]
      constructor
      · intro he; exact Or.inl he
      · intro he
        rcases he with he | he
        · exact he
        · exact absurd he.2 h
  refine ⟨htrace, ?_, ?_, ?_⟩
  · intro c hc
    rw [htrace]
    rw [List.mem_append]
    left
    rw [List.mem_flatten]
    exact ⟨closeActiveConnection endThrows c,
      List.mem_map.2 ⟨c, hc, rfl⟩, (hmemclose _ c).2 (Or.inl rfl)⟩
  · intro c
    rw [htrace]
    constructor
    · intro hmem
      rcases List.mem_append.1 hmem with h | h
      · obtain ⟨l, hl, hcl⟩ := List.mem_flatten.1 h
        obtain ⟨c2, hc2, hlc2⟩ := List.mem_map.1 hl
        rw [← hlc2] at hcl
        rcases (hmemclose _ c2).1 hcl with he | he
        · cases he
        · injection he.1 with hcc
          rw [hcc]
          exact ⟨hc2, he.2⟩
      · simp at h
    · intro ⟨hc, hthrow⟩
      rw [List.mem_append]
      left
      rw [List.mem_flatten]
      exact ⟨closeActiveConnection endThrows c,
        List.mem_map.2 ⟨c, hc, rfl⟩, (hmemclose _ c).2 (Or.inr ⟨rfl, hthrow⟩)⟩
  · rw [htrace]
    rw [show (conns.map (closeActiveConnection endThrows)).flatten
          ++ [ShutdownEvent.closeServer, ShutdownEvent.deleteSocketFile p,
              ShutdownEvent.resolve]
        = ((conns.map (closeActiveConnection endThrows)).flatten
            ++ [ShutdownEvent.closeServer, ShutdownEvent.deleteSocketFile p])
          ++ [ShutdownEvent.resolve] from by simp]
    rw [List.getLast?_concat]

/-- C8 witness: two tracked connections, the second of which throws on
graceful close. -/
theorem graceful_shutdown_trace_witness :
    ((fun q => q == "/tmp/gcubed_venv_switcher.sock") "/tmp/gcubed_venv_switcher.sock" = true)
    ∧ gracefullyShutdownServer [7, 8] (fun c => c == 8)
        (some "/tmp/gcubed_venv_switcher.sock") (fun q => q == "/tmp/gcubed_venv_switcher.sock")
      = (([7, 8].map (closeActiveConnection (fun c => c == 8))).flatten
        ++ [ShutdownEvent.closeServer,
            ShutdownEvent.deleteSocketFile "/tmp/gcubed_venv_switcher.sock",
            ShutdownEvent.resolve])
    ∧ (∀ c ∈ [7, 8], ShutdownEvent.endConn c
        ∈ gracefullyShutdownServer [7, 8] (fun c => c == 8)
            (some "/tmp/gcubed_venv_switcher.sock")
            (fun q => q == "/tmp/gcubed_venv_switcher.sock")) :=
  have happ := graceful_shutdown_trace [7, 8] (fun c => c == 8)
    "/tmp/gcubed_venv_switcher.sock" (fun q => q == "/tmp/gcubed_venv_switcher.sock")
    (by decide)
  ⟨by decide, happ.1, happ.2.1⟩

/-- C9: the default configuration values are those the spec documents —
concurrency ceiling 5, hard-close timeout 3000 ms, buffer cap 1024 bytes,
environment-overridable socket path with the fixed `/tmp` fallback, and a
message-completion timeout inside the documented 1000–3000 ms range. -/
theorem default_configuration_values :
    MAX_CONCURRENT_CLIENT_CONNECTIONS = 5
    ∧ FIRM_SOCKET_CLOSE_TIMEOUT = 3000
    ∧ MAX_BUFFER_SIZE = 1024
    ∧ serverSocketPath none = "/tmp/gcubed_venv_switcher.sock"
    ∧ (∀ s : String, s ≠ "" → serverSocketPath (some s) = s)
    ∧ 1000 ≤ INCOMING_MESSAGE_COMPLETION_TIMEOUT_MS
    ∧ INCOMING_MESSAGE_COMPLETION_TIMEOUT_MS ≤ 3000 := by
  refine ⟨rfl, rfl, rfl, rfl, ?_, by decide, by decide⟩
  intro s hs
  show (if s = "" then "/tmp/gcubed_venv_switcher.sock" else s) = s
  rw [if_neg hs]

/-- C9 witness: a non-empty environment override is returned verbatim. -/
theorem default_configuration_values_witness :
    ("/run/custom.sock" : String) ≠ ""
    ∧ serverSocketPath (some "/run/custom.sock") = "/run/custom.sock" :=
  ⟨by decide, default_configuration_values.2.2.2.2.1 "/run/custom.sock" (by decide)⟩

/-- C10: the buffer-cap check applies only to terminator-free chunks — a
chunk containing the terminator completes the frame with no size check at
all, so a frame larger than `MAX_BUFFER_SIZE` (e.g. a single 10-kilobyte
chunk ending in the terminator, or a full accumulation followed by an
arbitrarily large terminator-bearing chunk) is accepted and parsed rather
than rejected. -/
theorem terminator_chunk_bypasses_size_check :
    (∀ (buf : Option (List Nat)) (chunk : Chunk) (i : Nat),
      indexOfNullByte chunk = some i →
      dataEventStep buf chunk
        = RecvStep.frame ((match buf with | none => [] | some b => b) ++ chunk.take i))
    ∧ (∀ n : Nat, receiveLoop none [List.replicate n 65 ++ [NULL_BYTE]]
        = RecvOutcome.frame (List.replicate n 65))
    ∧ (∀ (good : List Chunk) (c : Chunk) (i : Nat),
      (∀ x ∈ good, NULL_BYTE ∉ x) → good.flatten.length ≤ MAX_BUFFER_SIZE →
      indexOfNullByte c = some i →
      receiveLoop none (good ++ [c]) = RecvOutcome.frame (good.flatten ++ c.take i)) := by
  refine ⟨fun buf chunk i h => dataEventStep_frame h buf, ?_, ?_⟩
  · intro n
    have hterm : NULL_BYTE ∉ List.replicate n 65 := by
      intro hmem
      exact absurd (List.eq_of_mem_replicate hmem) (by decide)
    have hidx : indexOfNullByte (List.replicate n 65 ++ [NULL_BYTE]) = some n := by
      have := @indexOfNullByte_first _ ([] : List Nat) hterm
      rwa [List.length_replicate] at this
    rw [receiveLoop_none_eq_empty,
      receiveLoop_cons_frame (dataEventStep_frame hidx (some []))]
    rw [List.take_append_of_le_length (by rw [List.length_replicate]),
      List.take_of_length_le (by rw [List.length_replicate])]
    rfl
  · intro good c i hgood hsize hc
    have hcons : ∃ d ds, good ++ [c] = d :: ds := by
      cases good with
      | nil => exact ⟨c, [], rfl⟩
      | cons p ps => exact ⟨p, ps ++ [c], rfl⟩
    obtain ⟨d, ds, hds⟩ := hcons
    rw [hds, receiveLoop_none_eq_empty, ← hds,
      receiveLoop_pre_frame good [] c [] i hgood (by simpa using hsize) hc]
    rfl

/-- C10 witness: a full 1024-byte accumulation followed by a 1500-byte
terminator-bearing chunk completes a 2523-byte frame with no size error. -/
theorem terminator_chunk_bypasses_size_check_witness :
    indexOfNullByte (List.replicate 1499 65 ++ [NULL_BYTE]) = some 1499
    ∧ dataEventStep (some (List.replicate 1024 66)) (List.replicate 1499 65 ++ [NULL_BYTE])
      = RecvStep.frame ((match (some (List.replicate 1024 66) : Option (List Nat)) with
          | none => [] | some b => b)
        ++ (List.replicate 1499 65 ++ [NULL_BYTE]).take 1499) :=
  have hterm : NULL_BYTE ∉ List.replicate 1499 65 := by
    intro hmem
    exact absurd (List.eq_of_mem_replicate hmem) (by decide)
  have hidx : indexOfNullByte (List.replicate 1499 65 ++ [NULL_BYTE]) = some 1499 := by
    have := @indexOfNullByte_first _ ([] : List Nat) hterm
    rwa [List.length_replicate] at this
  ⟨hidx,
    terminator_chunk_bypasses_size_check.1 (some (List.replicate 1024 66))
      (List.replicate 1499 65 ++ [NULL_BYTE]) 1499 hidx⟩

/-- C3 witness: the round trip evaluated on the canonical set-interpreter
request object. -/
theorem frame_round_trip_witness :
    jsonWF (Json.obj [("action", Json.str "set-interpreter"),
        ("pythonPath", Json.str "/usr/bin/python3")]) = true
    ∧ decodeFrame (encodeFrame (Json.obj [("action", Json.str "set-interpreter"),
        ("pythonPath", Json.str "/usr/bin/python3")]))
      = some (Json.obj [("action", Json.str "set-interpreter"),
        ("pythonPath", Json.str "/usr/bin/python3")]) :=
  ⟨rfl,
    frame_round_trip (Json.obj [("action", Json.str "set-interpreter"),
      ("pythonPath", Json.str "/usr/bin/python3")]) rfl⟩
